import Mathlib

/-!
Verification of the lilium_webdav WebDAV filesystem adapter.

This file gives a shallow embedding, in Lean, of the core of the adapter
found in `src/webdav/filesystem.rs` and `src/webdav/davfile.rs`:

* the data model (folder and note rows, keyed by `(parent_id, title[, syntax], user_id)`),
* the name codec (`parse_filename`),
* the path resolver (`resolve_path`),
* the store gateway (`create_or_update_note`, `create_folder`, `delete_note`,
  `delete_folder`, `rename_note`, `rename_folder`, `is_descendant`),
* the open-file handle (`SqliteDavFile`: cursor, write, flush) and the
  facade's `open` operation.

The SQLite tables are embedded as Lean lists of rows; `query_row` point
lookups become `List.find?` with the same WHERE predicate; `UPDATE`/`DELETE`
statements become `List.map`/`List.filter` with the same predicate.  Rust
`String` content is embedded as its UTF-8 byte sequence (`List Nat`), so the
`std::str::from_utf8` check in `flush` becomes a byte-level UTF-8 validator.
Nondeterministic inputs of the code (`Uuid::new_v4`, the current time) are
passed in as explicit parameters (`newId`, `ts`).  The unbounded parent walk
of `is_descendant` is embedded with an explicit fuel parameter, where the
result `none` means the source loop is still running after that many
iterations.
-/

namespace Lilium

/-- The four error kinds of `dav_server::fs::FsError` used by the adapter. -/
inductive FsError where
  | NotFound
  | Forbidden
  | Exists
  | GeneralFailure
deriving DecidableEq, Repr

/-- A row of the `folders` table. -/
structure Folder where
  id : String
  title : String
  parent_id : Option String
  user_id : String
  created_at : String
  updated_at : String
deriving DecidableEq, Repr

/-- A row of the `notes` table.  `content` is the UTF-8 byte sequence of the
text content; `syn` embeds the `syntax` column. -/
structure Note where
  id : String
  title : String
  content : List Nat
  syn : String
  parent_id : Option String
  user_id : String
  created_at : String
  updated_at : String
deriving DecidableEq, Repr

/-- The database: the two tables consumed by the adapter. -/
structure Store where
  folders : List Folder
  notes : List Note
deriving DecidableEq, Repr

/-! ## Name codec (`parse_filename`, filesystem.rs lines 725-733)

The source splits with `name.rsplitn(2, '.')`: scanning from the right, the
first `'.'` (if any) splits the name into `(title, syntax)`.  `splitAtLastDot`
is that scan on the character list. -/

/-- Split a character list at its last `'.'`: `some (left, right)` when a dot
exists, `none` otherwise.  Embeds `name.rsplitn(2, '.')` producing two parts. -/
def splitAtLastDot : List Char → Option (List Char × List Char)
  | [] => none
  | c :: rest =>
    match splitAtLastDot rest with
    | some (l, r) => some (c :: l, r)
    | none => if c = '.' then some ([], rest) else none

/-- `parse_filename` from filesystem.rs: parse `"note.md"` into
`("note", "md")` by splitting on the last dot; `none` when there is no dot. -/
def parse_filename (name : String) : Option (String × String) :=
  (splitAtLastDot name.data).map (fun p => (⟨p.1⟩, ⟨p.2⟩))

theorem splitAtLastDot_eq_none_iff (l : List Char) :
    splitAtLastDot l = none ↔ '.' ∉ l := by
  induction l with
  | nil => simp [splitAtLastDot]
  | cons c rest ih =>
    simp only [splitAtLastDot, List.mem_cons]
    cases h : splitAtLastDot rest with
    | some p =>
      have hmem : '.' ∈ rest := by
        by_contra hr
        rw [ih.mpr hr] at h
        exact Option.noConfusion h
      simp [hmem]
    | none =>
      by_cases hc : c = '.'
      · simp [hc]
      · simp [hc, ih.mp h, Ne.symm hc]

theorem splitAtLastDot_eq_some_iff (l : List Char) :
    ∀ a b, splitAtLastDot l = some (a, b) ↔ l = a ++ '.' :: b ∧ '.' ∉ b := by
  induction l with
  | nil =>
    intro a b
    constructor
    · intro h
      exact Option.noConfusion h
    · rintro ⟨hl, -⟩
      cases a <;> simp at hl
  | cons c rest ih =>
    intro a b
    simp only [splitAtLastDot]
    cases h : splitAtLastDot rest with
    | some p =>
      obtain ⟨l', r'⟩ := p
      obtain ⟨hrest, hnd⟩ := (ih l' r').mp h
      constructor
      · intro hs
        have h1 := Option.some.inj hs
        have ha : c :: l' = a := congrArg Prod.fst h1
        have hb : r' = b := congrArg Prod.snd h1
        subst ha hb
        subst hrest
        exact ⟨rfl, hnd⟩
      · rintro ⟨hl, hnd'⟩
        cases a with
        | nil =>
          have hc : c = '.' := (List.cons.inj hl).1
          have hrb : rest = b := (List.cons.inj hl).2
          have hmem : '.' ∈ rest := by rw [hrest]; simp
          rw [hrb] at hmem
          exact absurd hmem hnd'
        | cons a0 a' =>
          have hc : c = a0 := (List.cons.inj hl).1
          have hrest2 : rest = a' ++ '.' :: b := (List.cons.inj hl).2
          have hs2 : splitAtLastDot rest = some (a', b) :=
            (ih a' b).mpr ⟨hrest2, hnd'⟩
          rw [h] at hs2
          have h2 := Option.some.inj hs2
          have hl2 : l' = a' := congrArg Prod.fst h2

          have hr2 : r' = b := congrArg Prod.snd h2
          subst hc hl2 hr2
          rfl
    | none =>
      by_cases hc : c = '.'
      · subst hc
        simp only [if_pos rfl]
        constructor
        · intro hs
          have h1 := Option.some.inj hs
          have ha : ([] : List Char) = a := congrArg Prod.fst h1
          have hb : rest = b := congrArg Prod.snd h1
          subst hb
          rw [← ha]
          exact ⟨rfl, (splitAtLastDot_eq_none_iff rest).mp h⟩
        · rintro ⟨hl, hnd⟩
          cases a with
          | nil =>
            have hb : rest = b := (List.cons.inj hl).2
            subst hb
            rfl
          | cons a0 a' =>
            have hrest2 : rest = a' ++ '.' :: b := (List.cons.inj hl).2
            have hmem : '.' ∈ rest := by rw [hrest2]; simp
            exact absurd hmem ((splitAtLastDot_eq_none_iff rest).mp h)
      · simp only [if_neg hc]
        constructor
        · intro hs
          exact Option.noConfusion hs
        · rintro ⟨hl, hnd⟩
          cases a with
          | nil =>
            exact absurd (List.cons.inj hl).1 hc
          | cons a0 a' =>
            have hrest2 : rest = a' ++ '.' :: b := (List.cons.inj hl).2
            have hs2 : splitAtLastDot rest = some (a', b) :=
              (ih a' b).mpr ⟨hrest2, hnd⟩
            rw [h] at hs2
            exact Option.noConfusion hs2

/-- C1 counterexample input: the hidden-file name `".hidden"`. -/
def hiddenName : String := ".hidden"

/-- **C1 (counterexample).**  The claim states that a terminal segment
beginning with `'.'` (a hidden-file name) parses to nothing.  In the code,
`parse_filename ".hidden"` yields `("", "hidden")` — an empty title and a
non-empty syntax — not `none`. -/
theorem c1_counterexample_hidden_file_parses :
    parse_filename hiddenName = some ("", "hidden") ∧
      parse_filename hiddenName ≠ none := by
  constructor <;> decide

/-- **C1 (amended).**  For every terminal path segment `s`, parsing `s` as a
note name yields `(title, syntax)` exactly when `s` contains a `'.'`; then
`title` is everything before the last `'.'` and `syntax` is everything after
it, and either side may be empty (in particular a leading-dot segment such as
`".hidden"` yields `("", "hidden")`).  When `s` contains no `'.'`, parsing
yields nothing. -/
theorem c1_amended_parse_filename_splits_at_last_dot (s title syn : String) :
    (parse_filename s = some (title, syn) ↔
      s.data = title.data ++ '.' :: syn.data ∧ '.' ∉ syn.data) ∧
    (parse_filename s = none ↔ '.' ∉ s.data) := by
  constructor
  · constructor
    · intro h
      simp only [parse_filename, Option.map_eq_some'] at h
      obtain ⟨⟨l, r⟩, hsplit, heq⟩ := h
      simp only [Prod.mk.injEq] at heq
      obtain ⟨ht, hy⟩ := heq
      obtain ⟨hl, hnd⟩ := (splitAtLastDot_eq_some_iff s.data l r).mp hsplit
      subst ht hy
      exact ⟨hl, hnd⟩
    · rintro ⟨hl, hnd⟩
      have : splitAtLastDot s.data = some (title.data, syn.data) :=
        (splitAtLastDot_eq_some_iff s.data title.data syn.data).mpr ⟨hl, hnd⟩
      simp [parse_filename, this]
  · simp only [parse_filename, Option.map_eq_none']
    exact splitAtLastDot_eq_none_iff s.data

/-! ## Point lookups of the store gateway (filesystem.rs lines 100-205)

Each `query_row` in the source is a single-row lookup; an unordered SQL
`SELECT` returning at most one relevant row is embedded as `List.find?` with
the same WHERE predicate. -/

/-- WHERE predicate of the folder lookups:
`title = ? AND parent_id = ?/IS NULL AND user_id = ?`. -/
def folderKeyMatches (uid : String) (parent : Option String) (title : String)
    (f : Folder) : Bool :=
  f.title = title && f.parent_id = parent && f.user_id = uid

/-- WHERE predicate of the note lookups:
`title = ? AND syntax = ? AND parent_id = ?/IS NULL AND user_id = ?`. -/
def noteKeyMatches (uid : String) (parent : Option String) (title syn : String)
    (n : Note) : Bool :=
  n.title = title && n.syn = syn && n.parent_id = parent && n.user_id = uid

/-- `find_folder` from filesystem.rs: `SELECT id FROM folders WHERE ...`. -/
def find_folder (st : Store) (uid : String) (parent : Option String)
    (title : String) : Option String :=
  (st.folders.find? (folderKeyMatches uid parent title)).map (·.id)

/-- `note_exists` from filesystem.rs: `SELECT 1 FROM notes WHERE ...`. -/
def note_exists (st : Store) (uid : String) (parent : Option String)
    (title syn : String) : Bool :=
  st.notes.any (noteKeyMatches uid parent title syn)

/-- The `SELECT id FROM notes WHERE ...` lookup shared by
`create_or_update_note`, `delete_note` and `rename_note`. -/
def findNoteId (st : Store) (uid : String) (parent : Option String)
    (title syn : String) : Option String :=
  (st.notes.find? (noteKeyMatches uid parent title syn)).map (·.id)

/-- The note snapshot held by an open file handle (`NoteData` in the source:
no `parent_id`/`user_id` columns). -/
structure NoteData where
  id : String
  title : String
  content : List Nat
  syn : String
  created_at : String
  updated_at : String
deriving DecidableEq, Repr

/-- `get_note` from filesystem.rs: fetch the full row, mapping a missing row
to `NotFound` at the caller. -/
def get_note (st : Store) (uid : String) (parent : Option String)
    (title syn : String) : Option NoteData :=
  (st.notes.find? (noteKeyMatches uid parent title syn)).map
    (fun n => ⟨n.id, n.title, n.content, n.syn, n.created_at, n.updated_at⟩)

/-! ## Path resolver (`resolve_path`, filesystem.rs lines 43-98)

The resolver walks the already percent-decoded component list; the empty list
is the root path.  The source's indexed loop with an `is_last` test is the
recursion below. -/

/-- Result type of path resolution (`ResolvedPath` in the source). -/
inductive ResolvedPath where
  | Root
  | Folder (id : String)
  | Note (parent_id : Option String) (title : String) (syn : String)
deriving DecidableEq, Repr

/-- The terminal-component step of `resolve_path`: try the note lookup when
the name parses, then fall back to the folder lookup. -/
def resolveTerminal (st : Store) (uid : String) (parent : Option String)
    (t : String) : Except FsError ResolvedPath :=
  let noteHit :=
    match parse_filename t with
    | some (title, syn) =>
      if note_exists st uid parent title syn then some (title, syn) else none
    | none => none
  match noteHit with
  | some (title, syn) => .ok (.Note parent title syn)
  | none =>
    match find_folder st uid parent t with
    | some fid => .ok (.Folder fid)
    | none => .error .NotFound

/-- The component loop of `resolve_path`: non-terminal components must be
existing folders; the terminal component is classified by `resolveTerminal`. -/
def resolveComponents (st : Store) (uid : String) (parent : Option String) :
    List String → Except FsError ResolvedPath
  | [] => .error .NotFound
  | [t] => resolveTerminal st uid parent t
  | c :: c2 :: rest =>
    match find_folder st uid parent c with
    | some fid => resolveComponents st uid (some fid) (c2 :: rest)
    | none => .error .NotFound

/-- `resolve_path` from filesystem.rs on the decoded component list. -/
def resolve_path (st : Store) (uid : String) (components : List String) :
    Except FsError ResolvedPath :=
  if components.isEmpty then .ok .Root
  else resolveComponents st uid none components

/-- The walk over the non-terminal components used by `open`'s create path,
`create_dir` and `rename` (and implicitly by the resolver): resolve each
component as an existing folder under the current parent; `none` when one is
missing. -/
def walkFolders (st : Store) (uid : String) :
    Option String → List String → Option (Option String)
  | parent, [] => some parent
  | parent, c :: rest =>
    match find_folder st uid parent c with
    | some fid => walkFolders st uid (some fid) rest
    | none => none

theorem resolveComponents_append_last (st : Store) (uid : String)
    (pre : List String) (t : String) : ∀ parent,
    resolveComponents st uid parent (pre ++ [t]) =
      match walkFolders st uid parent pre with
      | some p => resolveTerminal st uid p t
      | none => .error .NotFound := by
  induction pre with
  | nil =>
    intro parent
    simp [resolveComponents, walkFolders]
  | cons c pre' ih =>
    intro parent
    cases pre' with
    | nil =>
      simp only [List.cons_append, List.nil_append]
      simp only [resolveComponents, walkFolders]
      cases find_folder st uid parent c with
      | some fid => simp [resolveComponents, walkFolders]
      | none => rfl
    | cons c2 rest =>
      simp only [List.cons_append]
      simp only [resolveComponents, walkFolders]
      cases find_folder st uid parent c with
      | some fid =>
        have := ih (some fid)
        simpa using this
      | none => rfl

/-- **C2.**  For every absolute path: the empty path resolves to `Root`; if a
non-terminal component is not an existing folder under its parent (the folder
walk fails), resolution fails `NotFound`; and when the walk of the
non-terminal components reaches parent `p`, the terminal `t` is classified as
`Note` if it parses and a matching note exists under `p`, else `Folder` if a
folder named exactly `t` exists under `p`, else the resolution fails
`NotFound`. -/
theorem c2_resolve_path_classification (st : Store) (uid : String)
    (pre : List String) (t : String) :
    resolve_path st uid [] = .ok .Root ∧
    (walkFolders st uid none pre = none →
      resolve_path st uid (pre ++ [t]) = .error .NotFound) ∧
    (∀ p, walkFolders st uid none pre = some p →
      (∀ title syn, parse_filename t = some (title, syn) →
        note_exists st uid p title syn = true →
        resolve_path st uid (pre ++ [t]) = .ok (.Note p title syn)) ∧
      ((match parse_filename t with
        | some (title, syn) => note_exists st uid p title syn
        | none => false) = false →
        (∀ fid, find_folder st uid p t = some fid →
          resolve_path st uid (pre ++ [t]) = .ok (.Folder fid)) ∧
        (find_folder st uid p t = none →
          resolve_path st uid (pre ++ [t]) = .error .NotFound))) := by
  have hne : (pre ++ [t]).isEmpty = false := by
    cases pre <;> rfl
  have hres : resolve_path st uid (pre ++ [t]) =
      resolveComponents st uid none (pre ++ [t]) := by
    simp [resolve_path, hne]
  refine ⟨rfl, ?_, ?_⟩
  · intro hwalk
    rw [hres, resolveComponents_append_last, hwalk]
  · intro p hwalk
    have hterm : resolve_path st uid (pre ++ [t]) =
        resolveTerminal st uid p t := by
      rw [hres, resolveComponents_append_last, hwalk]
    constructor
    · intro title syn hparse hnote
      rw [hterm]
      simp [resolveTerminal, hparse, hnote]
    · intro hmiss
      constructor
      · intro fid hfid
        rw [hterm]
        cases hp : parse_filename t with
        | some ps =>
          obtain ⟨title, syn⟩ := ps
          rw [hp] at hmiss
          simp only [] at hmiss
          simp [resolveTerminal, hp, hmiss, hfid]
        | none => simp [resolveTerminal, hp, hfid]
      · intro hfid
        rw [hterm]
        cases hp : parse_filename t with
        | some ps =>
          obtain ⟨title, syn⟩ := ps
          rw [hp] at hmiss
          simp only [] at hmiss
          simp [resolveTerminal, hp, hmiss, hfid]
        | none => simp [resolveTerminal, hp, hfid]

/-- A one-note store used to instantiate several theorems. -/
def oneNoteStore : Store :=
  { folders := [],
    notes := [⟨"n1", "a", [104, 105], "md", none, "u", "T0", "T0"⟩] }

/-- Witness for C2: on a store holding the single root-level note `a.md`,
the path `["a.md"]` resolves to that note, by the C2 classification. -/
theorem c2_witness :
    resolve_path oneNoteStore "u" ["a.md"] = .ok (.Note none "a" "md") := by
  have h := c2_resolve_path_classification oneNoteStore "u" [] "a.md"
  exact ((h.2.2 none (by decide)).1 "a" "md" (by decide) (by decide))

/-! ## Store gateway mutators (filesystem.rs lines 316-657)

SQL `UPDATE`/`DELETE` statements act on every row matching their WHERE
clause; they are embedded as `List.map`/`List.filter` with the same
predicate.  `INSERT` appends the new row.  The fresh UUID and the timestamp
are explicit parameters. -/

/-- `create_or_update_note` from filesystem.rs.  When a row with the matching
key exists, its `content` and `updated_at` are updated — the source's UPDATE
statement filters by `id` alone (`WHERE id = ?`), with no `user_id`
condition.  Otherwise a fresh row is inserted.  Returns the id. -/
def create_or_update_note (st : Store) (uid ts newId : String)
    (parent : Option String) (title syn : String) (content : List Nat) :
    Store × String :=
  match findNoteId st uid parent title syn with
  | some nid =>
    ({ st with notes := st.notes.map (fun n =>
        if n.id = nid then { n with content := content, updated_at := ts }
        else n) }, nid)
  | none =>
    ({ st with notes :=
        st.notes ++ [⟨newId, title, content, syn, parent, uid, ts, ts⟩] },
      newId)

/-- `create_folder` from filesystem.rs: fail `Exists` when a folder with the
same `(parent_id, title)` exists for this user, else insert a fresh row. -/
def create_folder (st : Store) (uid ts newId : String)
    (parent : Option String) (title : String) :
    Except FsError (Store × String) :=
  match find_folder st uid parent title with
  | some _ => .error .Exists
  | none =>
    .ok ({ st with folders :=
        st.folders ++ [⟨newId, title, parent, uid, ts, ts⟩] }, newId)

/-- `delete_note` from filesystem.rs: look the row up by key (fail `NotFound`
when missing), then `DELETE FROM notes WHERE id = ? AND user_id = ?`. -/
def delete_note (st : Store) (uid : String) (parent : Option String)
    (title syn : String) : Except FsError Store :=
  match findNoteId st uid parent title syn with
  | none => .error .NotFound
  | some nid =>
    .ok { st with notes :=
      st.notes.filter (fun n => !(n.id = nid && n.user_id = uid)) }

/-- The transitive closure of the `ON DELETE CASCADE` foreign keys on
`folders.parent_id`: starting from the deleted ids in `acc`, repeatedly add
every folder whose parent id is already doomed.  The cascade is driven by the
id reference alone — it carries no `user_id` condition.  A fuel of
`folders.length` reaches the fixpoint. -/
def cascadeNextCond (acc : List String) (f : Folder) : Bool :=
  match f.parent_id with
  | some p => acc.contains p && !acc.contains f.id
  | none => false

def expandDescendants (folders : List Folder) : Nat → List String → List String
  | 0, acc => acc
  | fuel + 1, acc =>
    let next := folders.filter (cascadeNextCond acc)
    if next.isEmpty then acc
    else expandDescendants folders fuel (acc ++ next.map (·.id))

/-- `delete_folder` from filesystem.rs: verify the folder exists for this
user (`SELECT 1 ... WHERE id = ? AND user_id = ?`), then delete it; the
database cascade removes every folder and note transitively parented by it,
regardless of owner. -/
def delete_folder (st : Store) (uid fid : String) : Except FsError Store :=
  if st.folders.any (fun f => f.id = fid && f.user_id = uid) then
    let doomed := expandDescendants st.folders st.folders.length [fid]
    .ok { folders := st.folders.filter (fun f => !doomed.contains f.id),
          notes := st.notes.filter (fun n =>
            match n.parent_id with
            | some p => !doomed.contains p
            | none => true) }
  else .error .NotFound

/-- The row function of `rename_note`'s UPDATE statement
(`SET title, syntax, parent_id, updated_at WHERE id = ? AND user_id = ?`). -/
def renameNoteUpdate (uid ts : String) (dstP : Option String)
    (dstT dstS : String) (nid : String) (n : Note) : Note :=
  if n.id = nid && n.user_id = uid then
    { n with title := dstT, syn := dstS, parent_id := dstP, updated_at := ts }
  else n

/-- `rename_note` from filesystem.rs: find the source row by key (fail
`NotFound` when missing); if a different note occupies the destination key,
delete it (`DELETE ... WHERE id = ? AND user_id = ?`); then update the source
row's `title`, `syntax`, `parent_id` and `updated_at`
(`UPDATE ... WHERE id = ? AND user_id = ?`). -/
def rename_note (st : Store) (uid ts : String) (srcP : Option String)
    (srcT srcS : String) (dstP : Option String) (dstT dstS : String) :
    Except FsError Store :=
  match findNoteId st uid srcP srcT srcS with
  | none => .error .NotFound
  | some nid =>
    let st1 : Store :=
      match findNoteId st uid dstP dstT dstS with
      | some did =>
        if did ≠ nid then
          { st with notes :=
              st.notes.filter (fun n => !(n.id = did && n.user_id = uid)) }
        else st
      | none => st
    .ok { st1 with notes :=
      st1.notes.map (renameNoteUpdate uid ts dstP dstT dstS nid) }

/-- The parent lookup inside `is_descendant`:
`SELECT parent_id FROM folders WHERE id = ? AND user_id = ?`.
`none` means no row; `some p` is the row's (possibly NULL) parent. -/
def folderParent (st : Store) (uid fid : String) : Option (Option String) :=
  (st.folders.find? (fun f => f.id = fid && f.user_id = uid)).map (·.parent_id)

/-- `is_descendant` from filesystem.rs (lines 633-657): walk the ancestor
chain of `current` upward; `some true` when `ancestor` is hit, `some false`
when the chain ends (no row, or NULL parent).  The source loop is unbounded;
the `fuel` parameter counts loop iterations, and `none` means the loop is
still running after `fuel` iterations. -/
def isDescendantFuel (st : Store) (uid : String) :
    Nat → String → String → Option Bool
  | 0, _, _ => none
  | fuel + 1, current, ancestor =>
    if current = ancestor then some true
    else
      match folderParent st uid current with
      | some (some p) => isDescendantFuel st uid fuel p ancestor
      | _ => some false

/-- The final UPDATE of `rename_folder`:
`UPDATE folders SET title = ?, parent_id = ?, updated_at = ? WHERE id = ? AND user_id = ?`. -/
def applyFolderUpdate (st : Store) (uid ts fid : String)
    (newParent : Option String) (newTitle : String) : Store :=
  { st with folders := st.folders.map (fun f =>
      if f.id = fid && f.user_id = uid then
        { f with title := newTitle, parent_id := newParent, updated_at := ts }
      else f) }

/-- `rename_folder` from filesystem.rs: verify the source exists (else
`NotFound`); fail `Exists` when a *different* folder occupies the destination
`(parent, title)`; fail `Forbidden` when the new parent is the folder itself
or, per the ancestor walk, one of its descendants; otherwise run the update.
The outer `Option` reflects the unbounded ancestor walk: `none` means the
walk is still running after `fuel` iterations. -/
def rename_folder (st : Store) (uid ts : String) (fuel : Nat) (fid : String)
    (newParent : Option String) (newTitle : String) :
    Option (Except FsError Store) :=
  if !(st.folders.any (fun f => f.id = fid && f.user_id = uid)) then
    some (.error .NotFound)
  else
    let conflict : Bool :=
      match find_folder st uid newParent newTitle with
      | some did => did != fid
      | none => false
    if conflict then some (.error .Exists)
    else
      match newParent with
      | some np =>
        if np = fid then some (.error .Forbidden)
        else
          match isDescendantFuel st uid fuel np fid with
          | none => none
          | some true => some (.error .Forbidden)
          | some false =>
            some (.ok (applyFolderUpdate st uid ts fid newParent newTitle))
      | none => some (.ok (applyFolderUpdate st uid ts fid newParent newTitle))

/-! ## Store well-formedness

The database schema's PRIMARY KEY and the uniqueness invariants of spec §3,
used as hypotheses by the relational theorems. -/

/-- Note ids are pairwise distinct (the `notes.id` PRIMARY KEY). -/
def notesIdUnique (st : Store) : Prop :=
  st.notes.Pairwise (fun a b => a.id ≠ b.id)

/-- Folder ids are pairwise distinct (the `folders.id` PRIMARY KEY). -/
def foldersIdUnique (st : Store) : Prop :=
  st.folders.Pairwise (fun a b => a.id ≠ b.id)

/-- Within `(user_id, parent_id)`, the pair `(title, syntax)` is unique
across notes (spec §3). -/
def notesKeyUnique (st : Store) : Prop :=
  st.notes.Pairwise (fun a b =>
    ¬(a.user_id = b.user_id ∧ a.parent_id = b.parent_id ∧
      a.title = b.title ∧ a.syn = b.syn))

/-- Within `(user_id, parent_id)`, `title` is unique across folders
(spec §3). -/
def foldersKeyUnique (st : Store) : Prop :=
  st.folders.Pairwise (fun a b =>
    ¬(a.user_id = b.user_id ∧ a.parent_id = b.parent_id ∧ a.title = b.title))

instance (st : Store) : Decidable (notesIdUnique st) := by
  unfold notesIdUnique; infer_instance

instance (st : Store) : Decidable (foldersIdUnique st) := by
  unfold foldersIdUnique; infer_instance

instance (st : Store) : Decidable (notesKeyUnique st) := by
  unfold notesKeyUnique; infer_instance

instance (st : Store) : Decidable (foldersKeyUnique st) := by
  unfold foldersKeyUnique; infer_instance

/-! ## List helper lemmas shared by the relational theorems -/

theorem nodup_of_field_pairwise {α β : Type} (f : α → β) (l : List α)
    (h : l.Pairwise (fun a b => f a ≠ f b)) : l.Nodup :=
  h.imp (fun hab heq => hab (congrArg f heq))

theorem filter_map_eq_singleton {α : Type} (q : α → Bool) (g : α → α) :
    ∀ (l : List α) (n : α), l.Nodup → n ∈ l →
      (∀ m ∈ l, m ≠ n → q (g m) = false) → q (g n) = true →
      (l.map g).filter q = [g n] := by
  intro l
  induction l with
  | nil =>
    intro n _ hn
    exact absurd hn (List.not_mem_nil n)
  | cons a l' ih =>
    intro n hnd hn hother hgn
    have hanotmem := (List.nodup_cons.mp hnd).1
    have hnd' := (List.nodup_cons.mp hnd).2
    rcases List.mem_cons.mp hn with rfl | hn'
    · have hrest : (l'.map g).filter q = [] := by
        rw [List.filter_eq_nil_iff]
        intro x hx
        obtain ⟨m, hm, rfl⟩ := List.mem_map.mp hx
        have hmn : m ≠ n := fun h => hanotmem (h ▸ hm)
        simp [hother m (List.mem_cons_of_mem _ hm) hmn]
      simp [List.filter_cons, hgn, hrest]
    · have hqa : q (g a) = false :=
        hother a (List.mem_cons_self a l') (fun h => hanotmem (h ▸ hn'))
      have hrec : (l'.map g).filter q = [g n] :=
        ih n hnd' hn' (fun m hm hmn => hother m (List.mem_cons_of_mem _ hm) hmn)
          hgn
      simp [List.filter_cons, hqa, hrec]

theorem note_same_id_eq {st : Store} (hid : notesIdUnique st) {a b : Note}
    (ha : a ∈ st.notes) (hb : b ∈ st.notes) (hab : a.id = b.id) : a = b := by
  by_contra hne
  have hsym : Symmetric (fun a b : Note => a.id ≠ b.id) :=
    fun x y hxy h => hxy h.symm
  exact List.Pairwise.forall hsym hid ha hb hne hab

theorem note_same_key_eq {st : Store} (hkey : notesKeyUnique st) {a b : Note}
    (ha : a ∈ st.notes) (hb : b ∈ st.notes)
    (hu : a.user_id = b.user_id) (hp : a.parent_id = b.parent_id)
    (ht : a.title = b.title) (hs : a.syn = b.syn) : a = b := by
  by_contra hne
  have hsym : Symmetric (fun a b : Note =>
      ¬(a.user_id = b.user_id ∧ a.parent_id = b.parent_id ∧
        a.title = b.title ∧ a.syn = b.syn)) := by
    intro x y hxy hc
    exact hxy ⟨hc.1.symm, hc.2.1.symm, hc.2.2.1.symm, hc.2.2.2.symm⟩
  exact List.Pairwise.forall hsym hkey ha hb hne ⟨hu, hp, ht, hs⟩

theorem folder_same_id_eq {st : Store} (hid : foldersIdUnique st)
    {a b : Folder} (ha : a ∈ st.folders) (hb : b ∈ st.folders)
    (hab : a.id = b.id) : a = b := by
  by_contra hne
  have hsym : Symmetric (fun a b : Folder => a.id ≠ b.id) :=
    fun x y hxy h => hxy h.symm
  exact List.Pairwise.forall hsym hid ha hb hne hab

theorem folder_same_key_eq {st : Store} (hkey : foldersKeyUnique st)
    {a b : Folder} (ha : a ∈ st.folders) (hb : b ∈ st.folders)
    (hu : a.user_id = b.user_id) (hp : a.parent_id = b.parent_id)
    (ht : a.title = b.title) : a = b := by
  by_contra hne
  have hsym : Symmetric (fun a b : Folder =>
      ¬(a.user_id = b.user_id ∧ a.parent_id = b.parent_id ∧
        a.title = b.title)) := by
    intro x y hxy hc
    exact hxy ⟨hc.1.symm, hc.2.1.symm, hc.2.2.symm⟩
  exact List.Pairwise.forall hsym hkey ha hb hne ⟨hu, hp, ht⟩

theorem bool_eq_false_of_ne_true {b : Bool} (h : ¬ b = true) : b = false := by
  cases b
  · rfl
  · exact absurd rfl h

/-! ## C3: rename_note moves the source to the destination key -/

theorem renameNoteUpdate_self (uid ts : String) (dstP : Option String)
    (dstT dstS : String) {n : Note} (hu : n.user_id = uid) :
    renameNoteUpdate uid ts dstP dstT dstS n.id n =
      { n with title := dstT, syn := dstS, parent_id := dstP,
               updated_at := ts } := by
  simp [renameNoteUpdate, hu]

theorem renameNoteUpdate_key (uid ts : String) (dstP : Option String)
    (dstT dstS : String) {n : Note} (hu : n.user_id = uid) :
    noteKeyMatches uid dstP dstT dstS
      (renameNoteUpdate uid ts dstP dstT dstS n.id n) = true := by
  rw [renameNoteUpdate_self uid ts dstP dstT dstS hu]
  simp [noteKeyMatches, hu]

/-- **C3.**  For every existing source note, `rename_note` moves it to the
destination key: after the call, exactly one note row carries the destination
key `(dst_parent_id, dst_title, dst_syntax)` for this user, and that row is
the source row with `title`, `syntax`, `parent_id` and `updated_at` updated —
same `id`, same `content` (a different note previously occupying the
destination key is deleted first).  When the source note does not exist,
`rename_note` fails `NotFound`.  Hypotheses: the id and key uniqueness
invariants of the schema (§3). -/
theorem c3_rename_note_moves_to_destination (st : Store) (uid ts : String)
    (srcP : Option String) (srcT srcS : String)
    (dstP : Option String) (dstT dstS : String)
    (hid : notesIdUnique st) (hkey : notesKeyUnique st) :
    (st.notes.find? (noteKeyMatches uid srcP srcT srcS) = none →
      rename_note st uid ts srcP srcT srcS dstP dstT dstS =
        .error .NotFound) ∧
    (∀ n, st.notes.find? (noteKeyMatches uid srcP srcT srcS) = some n →
      ∃ st', rename_note st uid ts srcP srcT srcS dstP dstT dstS = .ok st' ∧
        st'.notes.filter (noteKeyMatches uid dstP dstT dstS) =
          [{ n with title := dstT, syn := dstS, parent_id := dstP,
                    updated_at := ts }]) := by
  constructor
  · intro h
    simp [rename_note, findNoteId, h]
  · intro n hfind
    have hmem : n ∈ st.notes := List.mem_of_find?_eq_some hfind
    have hkeyn := List.find?_some hfind
    simp only [noteKeyMatches, Bool.and_eq_true, decide_eq_true_eq] at hkeyn
    obtain ⟨⟨⟨hnT, hnS⟩, hnP⟩, hnU⟩ := hkeyn
    have hnodup : st.notes.Nodup :=
      nodup_of_field_pairwise Note.id st.notes hid
    have hgn_eq := renameNoteUpdate_self uid ts dstP dstT dstS (n := n) hnU
    have hgn_key := renameNoteUpdate_key uid ts dstP dstT dstS (n := n) hnU
    cases hdst : st.notes.find? (noteKeyMatches uid dstP dstT dstS) with
    | none =>
      have hres : rename_note st uid ts srcP srcT srcS dstP dstT dstS =
          .ok { st with notes :=
            st.notes.map (renameNoteUpdate uid ts dstP dstT dstS n.id) } := by
        simp only [rename_note, findNoteId, hfind, hdst, Option.map_some',
          Option.map_none']
      refine ⟨_, hres, ?_⟩
      have hother : ∀ m ∈ st.notes, m ≠ n →
          noteKeyMatches uid dstP dstT dstS
            (renameNoteUpdate uid ts dstP dstT dstS n.id m) = false := by
        intro m hm hmn
        by_cases hcond : (m.id = n.id && m.user_id = uid) = true
        · obtain ⟨hcid, -⟩ := Bool.and_eq_true .. ▸ hcond
          exact absurd (note_same_id_eq hid hm hmem
            (by exact of_decide_eq_true hcid)) hmn
        · have hfix : renameNoteUpdate uid ts dstP dstT dstS n.id m = m := by
            simp only [renameNoteUpdate, if_neg hcond]
          rw [hfix]
          exact bool_eq_false_of_ne_true (List.find?_eq_none.mp hdst m hm)
      show (st.notes.map (renameNoteUpdate uid ts dstP dstT dstS n.id)).filter
          (noteKeyMatches uid dstP dstT dstS) = _
      rw [filter_map_eq_singleton _ _ st.notes n hnodup hmem hother hgn_key,
        hgn_eq]
    | some d =>
      have hdmem : d ∈ st.notes := List.mem_of_find?_eq_some hdst
      have hdkey := List.find?_some hdst
      simp only [noteKeyMatches, Bool.and_eq_true, decide_eq_true_eq] at hdkey
      obtain ⟨⟨⟨hdT, hdS⟩, hdP⟩, hdU⟩ := hdkey
      by_cases hdn : d.id = n.id
      · have hdn' : d = n := note_same_id_eq hid hdmem hmem hdn
        subst hdn'
        have hres : rename_note st uid ts srcP srcT srcS dstP dstT dstS =
            .ok { st with notes :=
              st.notes.map (renameNoteUpdate uid ts dstP dstT dstS d.id) } := by
          simp only [rename_note, findNoteId, hfind, hdst, Option.map_some']
          rw [if_neg (by simp)]
        refine ⟨_, hres, ?_⟩
        have hother : ∀ m ∈ st.notes, m ≠ d →
            noteKeyMatches uid dstP dstT dstS
              (renameNoteUpdate uid ts dstP dstT dstS d.id m) = false := by
          intro m hm hmn
          by_cases hcond : (m.id = d.id && m.user_id = uid) = true
          · have hcid := hcond
            simp only [Bool.and_eq_true, decide_eq_true_eq] at hcid
            exact absurd (note_same_id_eq hid hm hmem hcid.1) hmn
          · have hfix : renameNoteUpdate uid ts dstP dstT dstS d.id m = m := by
              simp only [renameNoteUpdate, if_neg hcond]
            rw [hfix]
            by_contra hkm
            have hkm' : noteKeyMatches uid dstP dstT dstS m = true := by
              cases hb : noteKeyMatches uid dstP dstT dstS m
              · exact absurd hb hkm
              · rfl
            simp only [noteKeyMatches, Bool.and_eq_true,
              decide_eq_true_eq] at hkm'
            obtain ⟨⟨⟨hmT, hmS⟩, hmP⟩, hmU⟩ := hkm'
            exact hmn (note_same_key_eq hkey hm hdmem (hmU.trans hdU.symm)
              (hmP.trans hdP.symm) (hmT.trans hdT.symm) (hmS.trans hdS.symm))
        show (st.notes.map (renameNoteUpdate uid ts dstP dstT dstS d.id)).filter
            (noteKeyMatches uid dstP dstT dstS) = _
        rw [filter_map_eq_singleton _ _ st.notes d hnodup hmem hother hgn_key,
          hgn_eq]
      · have hnd2 : n.id ≠ d.id := fun h => hdn h.symm
        have hkeep : (!(n.id = d.id && n.user_id = uid)) = true := by
          simp [hnd2]
        have hres : rename_note st uid ts srcP srcT srcS dstP dstT dstS = .ok ⟨st.folders, List.map (renameNoteUpdate uid ts dstP dstT dstS n.id) (List.filter (fun m => !(m.id = d.id && m.user_id = uid)) st.notes)⟩ := by
          simp only [rename_note, findNoteId, hfind, hdst, Option.map_some']
          rw [if_pos hdn]
        refine ⟨_, hres, ?_⟩
        have hmemF : n ∈ st.notes.filter
            (fun m => !(m.id = d.id && m.user_id = uid)) :=
          List.mem_filter.mpr ⟨hmem, hkeep⟩
        have hsub : ∀ m ∈ st.notes.filter
            (fun m => !(m.id = d.id && m.user_id = uid)), m ∈ st.notes :=
          fun m hm => (List.mem_filter.mp hm).1
        have hother : ∀ m ∈ st.notes.filter
              (fun m => !(m.id = d.id && m.user_id = uid)), m ≠ n →
            noteKeyMatches uid dstP dstT dstS
              (renameNoteUpdate uid ts dstP dstT dstS n.id m) = false := by
          intro m hmF hmn
          have hm : m ∈ st.notes := hsub m hmF
          have hmKeep := (List.mem_filter.mp hmF).2
          by_cases hcond : (m.id = n.id && m.user_id = uid) = true
          · have hcid := hcond
            simp only [Bool.and_eq_true, decide_eq_true_eq] at hcid
            exact absurd (note_same_id_eq hid hm hmem hcid.1) hmn
          · have hfix : renameNoteUpdate uid ts dstP dstT dstS n.id m = m := by
              simp only [renameNoteUpdate, if_neg hcond]
            rw [hfix]
            by_contra hkm
            have hkm' : noteKeyMatches uid dstP dstT dstS m = true := by
              cases hb : noteKeyMatches uid dstP dstT dstS m
              · exact absurd hb hkm
              · rfl
            simp only [noteKeyMatches, Bool.and_eq_true,
              decide_eq_true_eq] at hkm'
            obtain ⟨⟨⟨hmT, hmS⟩, hmP⟩, hmU⟩ := hkm'
            have hmd : m = d := note_same_key_eq hkey hm hdmem
              (hmU.trans hdU.symm) (hmP.trans hdP.symm)
              (hmT.trans hdT.symm) (hmS.trans hdS.symm)
            subst hmd
            simp [hmU] at hmKeep
        show List.filter (noteKeyMatches uid dstP dstT dstS)
            (List.map (renameNoteUpdate uid ts dstP dstT dstS n.id)
              (List.filter (fun m => !(m.id = d.id && m.user_id = uid))
                st.notes)) = _
        rw [filter_map_eq_singleton _ _ _ n (hnodup.filter _) hmemF hother
          hgn_key, hgn_eq]

/-- A store holding the notes `a.md` (content `"1"`) and `b.md` (content
`"2"`) at root level — spec §8 scenario 3. -/
def twoNoteStore : Store :=
  ⟨[], [⟨"n1", "a", [49], "md", none, "u", "T0", "T0"⟩,
        ⟨"n2", "b", [50], "md", none, "u", "T0", "T0"⟩]⟩

/-- Witness for C3: moving `a.md` onto `b.md` leaves exactly one note at the
destination key — the source row `n1`, retitled `b`, content `"1"`. -/
theorem c3_witness :
    ∃ st', rename_note twoNoteStore "u" "T1" none "a" "md" none "b" "md" =
        .ok st' ∧
      st'.notes.filter (noteKeyMatches "u" none "b" "md") =
        [⟨"n1", "b", [49], "md", none, "u", "T0", "T1"⟩] :=
  (c3_rename_note_moves_to_destination twoNoteStore "u" "T1" none "a" "md"
      none "b" "md" (by decide) (by decide)).2
    ⟨"n1", "a", [49], "md", none, "u", "T0", "T0"⟩ (by decide)

/-! ## C10: rename_note onto its own key is an update of updated_at only -/

/-- **C10.**  Calling `rename_note` with destination key equal to the source
key succeeds without deleting the note: the destination-overwrite deletion is
skipped (the note found at the destination is the source itself), and the
resulting store is the old store with the source row's `updated_at` refreshed
— `id`, `title`, `syntax`, `parent_id`, `content` all unchanged.  Hypothesis:
note ids are unique (the schema's PRIMARY KEY). -/
theorem c10_rename_note_in_place (st : Store) (uid ts : String)
    (p : Option String) (t s : String) (hid : notesIdUnique st)
    (n : Note) (hfind : st.notes.find? (noteKeyMatches uid p t s) = some n) :
    rename_note st uid ts p t s p t s =
      .ok ⟨st.folders, st.notes.map
        (fun m => if m = n then { m with updated_at := ts } else m)⟩ := by
  have hmem : n ∈ st.notes := List.mem_of_find?_eq_some hfind
  have hkeyn := List.find?_some hfind
  simp only [noteKeyMatches, Bool.and_eq_true, decide_eq_true_eq] at hkeyn
  obtain ⟨⟨⟨hnT, hnS⟩, hnP⟩, hnU⟩ := hkeyn
  have hres : rename_note st uid ts p t s p t s =
      .ok ⟨st.folders,
        List.map (renameNoteUpdate uid ts p t s n.id) st.notes⟩ := by
    simp only [rename_note, findNoteId, hfind, Option.map_some']
    rw [if_neg (by simp)]
  rw [hres]
  have hmap : List.map (renameNoteUpdate uid ts p t s n.id) st.notes =
      List.map (fun m => if m = n then { m with updated_at := ts } else m)
        st.notes := by
    apply List.map_congr_left
    intro m hm
    by_cases hmn : m = n
    · subst hmn
      rw [if_pos rfl]
      obtain ⟨mid, mtit, mcon, msyn, mpar, muse, mcre, mupd⟩ := m
      simp only at hnT hnS hnP hnU
      subst hnT hnS hnP hnU
      simp [renameNoteUpdate]
    · have hcond : ¬((m.id = n.id && m.user_id = uid) = true) := by
        simp only [Bool.and_eq_true, decide_eq_true_eq]
        rintro ⟨hcid, -⟩
        exact hmn (note_same_id_eq hid hm hmem hcid)
      simp [renameNoteUpdate, hcond, if_neg hmn]
  rw [hmap]

/-- Witness for C10: renaming `a.md` onto itself refreshes only
`updated_at`. -/
theorem c10_witness :
    rename_note oneNoteStore "u" "T1" none "a" "md" none "a" "md" =
      .ok ⟨[], [⟨"n1", "a", [104, 105], "md", none, "u", "T0", "T1"⟩]⟩ := by
  have h := c10_rename_note_in_place oneNoteStore "u" "T1" none "a" "md"
    (by decide) ⟨"n1", "a", [104, 105], "md", none, "u", "T0", "T0"⟩
    (by decide)
  rw [h]
  rfl

/-! ## C4: rename_folder contract -/

/-- A store holding a single root-level folder. -/
def oneFolderStore : Store := ⟨[⟨"f", "t", none, "u", "A", "A"⟩], []⟩

/-- **C4 (counterexample).**  The claim states that renaming a folder in
place (same parent, same title) is a no-op.  In the code, the UPDATE
statement still runs and refreshes `updated_at`: renaming the folder `t` onto
itself with timestamp `"B"` succeeds but returns a changed store
(`updated_at` went from `"A"` to `"B"`), so the rename is not a no-op. -/
theorem c4_counterexample_in_place_rename_changes_store :
    rename_folder oneFolderStore "u" "B" 5 "f" none "t" =
      some (.ok ⟨[⟨"f", "t", none, "u", "A", "B"⟩], []⟩) ∧
    (⟨[⟨"f", "t", none, "u", "A", "B"⟩], []⟩ : Store) ≠ oneFolderStore := by
  constructor
  · rfl
  · decide

/-- **C4 (amended).**  For every existing source folder: `rename_folder`
fails `Exists` when the destination `(new_parent_id, new_title)` is occupied
by a different folder; otherwise it fails `Forbidden` when `new_parent_id`
equals the folder's own id or is one of its descendants (per the ancestor
walk); on either failure no update runs, so the store is unchanged;
otherwise it updates `title`, `parent_id` and `updated_at`.  Renaming in
place (same parent, same title) succeeds and leaves every field of every row
unchanged except the folder's `updated_at`, which is refreshed — it is not a
strict no-op. -/
theorem c4_amended_rename_folder_contract (st : Store) (uid ts : String)
    (fuel : Nat) (fid : String) (newParent : Option String)
    (newTitle : String)
    (hex : st.folders.any (fun f => f.id = fid && f.user_id = uid) = true) :
    (∀ did, find_folder st uid newParent newTitle = some did → did ≠ fid →
      rename_folder st uid ts fuel fid newParent newTitle =
        some (.error .Exists)) ∧
    ((find_folder st uid newParent newTitle = none ∨
      find_folder st uid newParent newTitle = some fid) →
      (newParent = some fid →
        rename_folder st uid ts fuel fid newParent newTitle =
          some (.error .Forbidden)) ∧
      (∀ np, newParent = some np → np ≠ fid →
        isDescendantFuel st uid fuel np fid = some true →
        rename_folder st uid ts fuel fid newParent newTitle =
          some (.error .Forbidden)) ∧
      (newParent = none →
        rename_folder st uid ts fuel fid newParent newTitle =
          some (.ok (applyFolderUpdate st uid ts fid newParent newTitle))) ∧
      (∀ np, newParent = some np → np ≠ fid →
        isDescendantFuel st uid fuel np fid = some false →
        rename_folder st uid ts fuel fid newParent newTitle =
          some (.ok (applyFolderUpdate st uid ts fid newParent newTitle)))) ∧
    (∀ f, st.folders.find? (fun g => g.id = fid && g.user_id = uid) = some f →
      foldersIdUnique st → foldersKeyUnique st →
      newParent = f.parent_id → newTitle = f.title →
      (newParent = none ∨ (∃ np, newParent = some np ∧ np ≠ fid ∧
        isDescendantFuel st uid fuel np fid = some false)) →
      rename_folder st uid ts fuel fid newParent newTitle =
        some (.ok ⟨st.folders.map
            (fun g => if g = f then { g with updated_at := ts } else g),
          st.notes⟩)) := by
  have hcondEx : (!(st.folders.any (fun f => f.id = fid && f.user_id = uid)))
      = false := by
    rw [hex]
    rfl
  refine ⟨?_, ?_, ?_⟩
  · intro did hdid hne
    simp only [rename_folder, hcondEx, Bool.false_eq_true, if_false, hdid,
      bne_iff_ne, ne_eq, hne, not_false_eq_true, if_true]
  · intro hnoc
    have hconflict : (match find_folder st uid newParent newTitle with
        | some did => did != fid
        | none => false) = false := by
      rcases hnoc with h | h
      · rw [h]
      · rw [h]
        simp
    refine ⟨?_, ?_, ?_, ?_⟩
    · intro hself
      subst hself
      simp [rename_folder, hcondEx, hconflict]
    · intro np hnp hne hdesc
      subst hnp
      simp [rename_folder, hcondEx, hconflict, hne, hdesc]
    · intro hnone
      subst hnone
      simp [rename_folder, hcondEx, hconflict]
    · intro np hnp hne hdesc
      subst hnp
      simp [rename_folder, hcondEx, hconflict, hne, hdesc]
  · intro f hfind hidU hkeyU hpar htit hwalk
    have hmem : f ∈ st.folders := List.mem_of_find?_eq_some hfind
    have hfk := List.find?_some hfind
    simp only [Bool.and_eq_true, decide_eq_true_eq] at hfk
    obtain ⟨hfid, hfu⟩ := hfk
    have hdst : find_folder st uid newParent newTitle = some fid := by
      have hpred : folderKeyMatches uid newParent newTitle f = true := by
        simp [folderKeyMatches, htit, hpar, hfu]
      have hsome : (st.folders.find?
          (folderKeyMatches uid newParent newTitle)).isSome := by
        rw [List.find?_isSome]
        exact ⟨f, hmem, hpred⟩
      obtain ⟨m0, hm0⟩ := Option.isSome_iff_exists.mp hsome
      have hm0mem : m0 ∈ st.folders := List.mem_of_find?_eq_some hm0
      have hm0k := List.find?_some hm0
      simp only [folderKeyMatches, Bool.and_eq_true, decide_eq_true_eq]
        at hm0k
      obtain ⟨⟨hm0T, hm0P⟩, hm0U⟩ := hm0k
      have : m0 = f := folder_same_key_eq hkeyU hm0mem hmem
        (hm0U.trans hfu.symm) (hm0P.trans hpar) (hm0T.trans htit)
      rw [find_folder, hm0, this, Option.map_some', hfid]
    have hconflict : (match find_folder st uid newParent newTitle with
        | some did => did != fid
        | none => false) = false := by
      rw [hdst]
      simp
    have hmap : applyFolderUpdate st uid ts fid newParent newTitle =
        ⟨st.folders.map
            (fun g => if g = f then { g with updated_at := ts } else g),
          st.notes⟩ := by
      unfold applyFolderUpdate
      congr 1
      apply List.map_congr_left
      intro g hg
      by_cases hgf : g = f
      · subst hgf
        rw [if_pos rfl]
        obtain ⟨gid, gtit, gpar, guse, gcre, gupd⟩ := g
        simp only at hfid hfu hpar htit
        subst hfid hfu
        rw [hpar, htit]
        simp
      · have hcond : ¬((g.id = fid && g.user_id = uid) = true) := by
          simp only [Bool.and_eq_true, decide_eq_true_eq]
          rintro ⟨hgid, -⟩
          exact hgf (folder_same_id_eq hidU hg hmem (hgid.trans hfid.symm))
        rw [if_neg hcond, if_neg hgf]
    rcases hwalk with hnone | ⟨np, hnp, hne, hdesc⟩
    · rw [hnone] at hconflict hmap ⊢
      simp [rename_folder, hcondEx, hconflict, hmap]
    · rw [hnp] at hconflict hmap ⊢
      simp [rename_folder, hcondEx, hconflict, hne, hdesc, hmap]

/-- A store holding two root-level folders `src` and `dst`. -/
def twoFolderStore : Store :=
  ⟨[⟨"f1", "src", none, "u", "A", "A"⟩, ⟨"f2", "dst", none, "u", "A", "A"⟩],
    []⟩

/-- Witness for C4: moving folder `src` onto the occupied name `dst` fails
`Exists`. -/
theorem c4_witness :
    rename_folder twoFolderStore "u" "B" 5 "f1" none "dst" =
      some (.error .Exists) :=
  (c4_amended_rename_folder_contract twoFolderStore "u" "B" 5 "f1" none "dst"
    (by decide)).1 "f2" (by decide) (by decide)

/-! ## C5: the descendant walk on a corrupt (cyclic) store -/

/-- A corrupt store whose folder parent graph is a two-cycle:
`A.parent = B` and `B.parent = A`. -/
def cyclicFolderStore : Store :=
  ⟨[⟨"A", "a", some "B", "u", "T", "T"⟩, ⟨"B", "b", some "A", "u", "T", "T"⟩],
    []⟩

theorem isDescendantFuel_cyclic_pair : ∀ fuel : Nat,
    isDescendantFuel cyclicFolderStore "u" fuel "A" "C" = none ∧
    isDescendantFuel cyclicFolderStore "u" fuel "B" "C" = none := by
  intro fuel
  induction fuel with
  | zero => exact ⟨rfl, rfl⟩
  | succ n ih =>
    constructor
    · calc isDescendantFuel cyclicFolderStore "u" (n + 1) "A" "C"
          = isDescendantFuel cyclicFolderStore "u" n "B" "C" := rfl
        _ = none := ih.2
    · calc isDescendantFuel cyclicFolderStore "u" (n + 1) "B" "C"
          = isDescendantFuel cyclicFolderStore "u" n "A" "C" := rfl
        _ = none := ih.1

/-- **C5 (code evaluation at the failing input).**  The claim states that the
descendant walk terminates on every store because it is bounded by the folder
row count.  The source loop carries no such bound: on the corrupt two-cycle
store (`A ⇄ B`, 2 folder rows) the walk from `A` looking for the absent
ancestor `C` is still running after any number of iterations — the loop
never terminates. -/
theorem c5_is_descendant_walk_never_terminates_on_cycle (fuel : Nat) :
    isDescendantFuel cyclicFolderStore "u" fuel "A" "C" = none :=
  (isDescendantFuel_cyclic_pair fuel).1

/-! ## Open file handle (`SqliteDavFile`, davfile.rs)

Rust `String` content is its UTF-8 byte sequence, so the handle's
`Cursor<Vec<u8>>` is a byte list plus a position, and `std::str::from_utf8`
is a byte-level UTF-8 validity check (RFC 3629 table, as in Rust's
`core::str` validation); on success the decoded text is the same bytes. -/

/-- A UTF-8 continuation byte: `0x80..=0xBF`. -/
def isUtf8Cont (b : Nat) : Bool := 0x80 ≤ b && b ≤ 0xBF

/-- Byte-level UTF-8 validity, the check done by `std::str::from_utf8`. -/
def isValidUtf8 : List Nat → Bool
  | [] => true
  | b :: rest =>
    if b ≤ 0x7F then isValidUtf8 rest
    else if 0xC2 ≤ b && b ≤ 0xDF then
      match rest with
      | c1 :: r => isUtf8Cont c1 && isValidUtf8 r
      | [] => false
    else if b = 0xE0 then
      match rest with
      | c1 :: c2 :: r =>
        (0xA0 ≤ c1 && c1 ≤ 0xBF) && (isUtf8Cont c2 && isValidUtf8 r)
      | _ => false
    else if 0xE1 ≤ b && b ≤ 0xEC then
      match rest with
      | c1 :: c2 :: r => isUtf8Cont c1 && (isUtf8Cont c2 && isValidUtf8 r)
      | _ => false
    else if b = 0xED then
      match rest with
      | c1 :: c2 :: r =>
        (0x80 ≤ c1 && c1 ≤ 0x9F) && (isUtf8Cont c2 && isValidUtf8 r)
      | _ => false
    else if 0xEE ≤ b && b ≤ 0xEF then
      match rest with
      | c1 :: c2 :: r => isUtf8Cont c1 && (isUtf8Cont c2 && isValidUtf8 r)
      | _ => false
    else if b = 0xF0 then
      match rest with
      | c1 :: c2 :: c3 :: r =>
        (0x90 ≤ c1 && c1 ≤ 0xBF) &&
          (isUtf8Cont c2 && (isUtf8Cont c3 && isValidUtf8 r))
      | _ => false
    else if 0xF1 ≤ b && b ≤ 0xF3 then
      match rest with
      | c1 :: c2 :: c3 :: r =>
        isUtf8Cont c1 && (isUtf8Cont c2 && (isUtf8Cont c3 && isValidUtf8 r))
      | _ => false
    else if b = 0xF4 then
      match rest with
      | c1 :: c2 :: c3 :: r =>
        (0x80 ≤ c1 && c1 ≤ 0x8F) &&
          (isUtf8Cont c2 && (isUtf8Cont c3 && isValidUtf8 r))
      | _ => false
    else false

/-- The open file handle (`SqliteDavFile` in davfile.rs): a note snapshot, a
byte cursor, the write flag, and the resolved parent id (the source also
holds the filesystem object, whose `db_path`/`user_id` appear here as the
explicit `st`/`uid` arguments of `flush`). -/
structure SqliteDavFile where
  note : NoteData
  buffer : List Nat
  pos : Nat
  writable : Bool
  parent_id : Option String
deriving DecidableEq, Repr

/-- `SqliteDavFile::new` (davfile.rs lines 29-38): read-only handle, buffer
seeded from the note content, no parent id. -/
def SqliteDavFile.new (note : NoteData) : SqliteDavFile :=
  ⟨note, note.content, 0, false, none⟩

/-- `SqliteDavFile::new_writable` (davfile.rs lines 40-49): writable handle.
The call sites in filesystem.rs pass `options.truncate` as a fourth argument,
but the constructor body ignores it and always seeds the buffer from the
existing note content. -/
def SqliteDavFile.new_writable (note : NoteData) (parent_id : Option String)
    (_truncate : Bool) : SqliteDavFile :=
  ⟨note, note.content, 0, true, parent_id⟩

/-- `Cursor::write_all` semantics: zero-pad up to the position if it lies
past the end, then overwrite in place, extending as needed. -/
def cursorWrite (buf : List Nat) (pos : Nat) (data : List Nat) : List Nat :=
  let padded := buf ++ List.replicate (pos - buf.length) 0
  padded.take pos ++ data ++ padded.drop (pos + data.length)

/-- `write_bytes` from davfile.rs: `Forbidden` on a read-only handle, else
write at the current position and advance it. -/
def SqliteDavFile.write_bytes (h : SqliteDavFile) (data : List Nat) :
    Except FsError SqliteDavFile :=
  if !h.writable then .error .Forbidden
  else .ok { h with buffer := cursorWrite h.buffer h.pos data,
                    pos := h.pos + data.length }

/-- `read_bytes` from davfile.rs: up to `count` bytes from the current
position (short reads near EOF), advancing the position. -/
def SqliteDavFile.read_bytes (h : SqliteDavFile) (count : Nat) :
    List Nat × SqliteDavFile :=
  let chunk := (h.buffer.drop h.pos).take count
  (chunk, { h with pos := h.pos + chunk.length })

/-- Reading to the end: everything from the current position. -/
def SqliteDavFile.readToEnd (h : SqliteDavFile) : List Nat :=
  h.buffer.drop h.pos

/-- `flush` from davfile.rs (lines 135-164): a no-op on a read-only handle;
on a writable handle, decode the whole buffer as UTF-8 (`GeneralFailure` on
failure) and commit it through `create_or_update_note` — the sole point at
which buffered bytes reach the store. -/
def SqliteDavFile.flush (st : Store) (uid ts newId : String)
    (h : SqliteDavFile) : Except FsError Store :=
  if !h.writable then .ok st
  else if isValidUtf8 h.buffer then
    .ok (create_or_update_note st uid ts newId h.parent_id h.note.title
      h.note.syn h.buffer).1
  else .error .GeneralFailure

/-- The `OpenOptions` flags consumed by `open`. -/
structure OpenOptions where
  read : Bool
  write : Bool
  append : Bool
  truncate : Bool
  create : Bool
  create_new : Bool
deriving DecidableEq, Repr

/-- `open` from filesystem.rs (lines 780-885) on the decoded component list:
resolve the path; an existing note yields a read-only or writable handle; a
folder or the root is `Forbidden`; on `NotFound` with `create`/`create_new`,
parse the terminal (`Forbidden` when unparseable), walk the non-terminal
components as existing folders (`NotFound` when one is missing), eagerly
create the empty note row, and return a writable handle. -/
def openFile (st : Store) (uid ts newId : String) (components : List String)
    (opts : OpenOptions) : Except FsError (Store × SqliteDavFile) :=
  match resolve_path st uid components with
  | .ok (.Note parent title syn) =>
    match get_note st uid parent title syn with
    | some note =>
      if opts.write || opts.append then
        .ok (st, .new_writable note parent opts.truncate)
      else .ok (st, .new note)
    | none => .error .NotFound
  | .ok _ => .error .Forbidden
  | .error .NotFound =>
    if opts.create || opts.create_new then
      match components.getLast? with
      | none => .error .Forbidden
      | some filename =>
        match parse_filename filename with
        | none => .error .Forbidden
        | some (title, syn) =>
          match walkFolders st uid none components.dropLast with
          | none => .error .NotFound
          | some parent =>
            let r := create_or_update_note st uid ts newId parent title syn []
            .ok (r.1, .new_writable ⟨r.2, title, [], syn, ts, ts⟩ parent true)
    else .error .NotFound
  | .error e => .error e

/-! ## C7: flush cases -/

/-- **C7.**  For every open file handle: `flush` on a read-only handle is a
no-op that succeeds and leaves the store unchanged; `flush` on a writable
handle whose buffer is not valid UTF-8 fails `GeneralFailure` without
committing anything; `flush` on a writable handle whose buffer is valid
UTF-8 commits exactly by calling
`create_or_update_note(parent_id, title, syntax, buffer)` — in this
embedding, the only handle operation that returns a store at all, i.e. the
sole commit point for buffered writes. -/
theorem c7_flush_cases (st : Store) (uid ts newId : String)
    (h : SqliteDavFile) :
    (h.writable = false → SqliteDavFile.flush st uid ts newId h = .ok st) ∧
    (h.writable = true → isValidUtf8 h.buffer = false →
      SqliteDavFile.flush st uid ts newId h = .error .GeneralFailure) ∧
    (h.writable = true → isValidUtf8 h.buffer = true →
      SqliteDavFile.flush st uid ts newId h =
        .ok (create_or_update_note st uid ts newId h.parent_id h.note.title
          h.note.syn h.buffer).1) := by
  refine ⟨?_, ?_, ?_⟩
  · intro hw
    simp [SqliteDavFile.flush, hw]
  · intro hw hv
    simp [SqliteDavFile.flush, hw, hv]
  · intro hw hv
    simp [SqliteDavFile.flush, hw, hv]

/-- A read-only handle over the note of `oneNoteStore`. -/
def roHandle : SqliteDavFile :=
  SqliteDavFile.new ⟨"n1", "a", [104, 105], "md", "T0", "T0"⟩

/-- A writable handle whose buffer holds the invalid UTF-8 byte `0xFF`. -/
def badHandle : SqliteDavFile :=
  ⟨⟨"n1", "a", [104, 105], "md", "T0", "T0"⟩, [255], 0, true, none⟩

/-- A writable handle whose buffer holds the valid UTF-8 byte `"h"`. -/
def goodHandle : SqliteDavFile :=
  ⟨⟨"n1", "a", [104, 105], "md", "T0", "T0"⟩, [104], 0, true, none⟩

/-- Witness for C7: the three flush cases at concrete handles. -/
theorem c7_witness :
    SqliteDavFile.flush oneNoteStore "u" "T1" "N" roHandle =
      .ok oneNoteStore ∧
    SqliteDavFile.flush oneNoteStore "u" "T1" "N" badHandle =
      .error .GeneralFailure ∧
    SqliteDavFile.flush oneNoteStore "u" "T1" "N" goodHandle =
      .ok (create_or_update_note oneNoteStore "u" "T1" "N" none "a" "md"
        [104]).1 :=
  ⟨(c7_flush_cases oneNoteStore "u" "T1" "N" roHandle).1 rfl,
   (c7_flush_cases oneNoteStore "u" "T1" "N" badHandle).2.1 rfl (by decide),
   (c7_flush_cases oneNoteStore "u" "T1" "N" goodHandle).2.2 rfl (by decide)⟩

/-! ## C6: the create path of open -/

theorem note_exists_create_or_update (st : Store) (uid ts newId : String)
    (parent : Option String) (title syn : String) (content : List Nat) :
    note_exists
      (create_or_update_note st uid ts newId parent title syn content).1
      uid parent title syn = true := by
  unfold create_or_update_note
  cases hf : findNoteId st uid parent title syn with
  | some nid =>
    obtain ⟨n, hn, hnid⟩ := Option.map_eq_some'.mp hf
    have hmem : n ∈ st.notes := List.mem_of_find?_eq_some hn
    have hk := List.find?_some hn
    simp only [note_exists, List.any_eq_true]
    refine ⟨(fun m : Note =>
        if m.id = nid then { m with content := content, updated_at := ts }
        else m) n,
      List.mem_map_of_mem _ hmem, ?_⟩
    have hkf := hk
    simp only [noteKeyMatches, Bool.and_eq_true, decide_eq_true_eq] at hkf
    obtain ⟨⟨⟨hT, hS⟩, hP⟩, hU⟩ := hkf
    simp [noteKeyMatches, hnid, hT, hS, hP, hU]
  | none =>
    simp [note_exists, noteKeyMatches]

/-- **C6.**  For every path `pre ++ [t]` that resolves `NotFound` while the
open options include `create` or `create_new`: if the terminal `t` does not
parse as `(title, syntax)`, `open` fails `Forbidden`; else if some
non-terminal component is not an existing folder, `open` fails `NotFound`;
otherwise `open` eagerly creates the note row at open time via
`create_or_update_note` with empty content — the returned store already
contains a note at `(parent, title, syntax)` before any flush — and returns
a writable handle with an empty buffer. -/
theorem c6_open_create_path (st : Store) (uid ts newId : String)
    (opts : OpenOptions) (pre : List String) (t : String)
    (hres : resolve_path st uid (pre ++ [t]) = .error .NotFound)
    (hcreate : opts.create = true ∨ opts.create_new = true) :
    (parse_filename t = none →
      openFile st uid ts newId (pre ++ [t]) opts = .error .Forbidden) ∧
    (∀ title syn, parse_filename t = some (title, syn) →
      walkFolders st uid none pre = none →
      openFile st uid ts newId (pre ++ [t]) opts = .error .NotFound) ∧
    (∀ title syn p, parse_filename t = some (title, syn) →
      walkFolders st uid none pre = some p →
      openFile st uid ts newId (pre ++ [t]) opts =
        .ok ((create_or_update_note st uid ts newId p title syn []).1,
          SqliteDavFile.new_writable
            ⟨(create_or_update_note st uid ts newId p title syn []).2,
              title, [], syn, ts, ts⟩ p true) ∧
      note_exists (create_or_update_note st uid ts newId p title syn []).1
        uid p title syn = true ∧
      (SqliteDavFile.new_writable
          ⟨(create_or_update_note st uid ts newId p title syn []).2,
            title, [], syn, ts, ts⟩ p true).buffer = [] ∧
      (SqliteDavFile.new_writable
          ⟨(create_or_update_note st uid ts newId p title syn []).2,
            title, [], syn, ts, ts⟩ p true).writable = true) := by
  have hcb : (opts.create || opts.create_new) = true := by
    rcases hcreate with h | h <;> simp [h]
  have hlast : (pre ++ [t]).getLast? = some t := by
    simp
  have hdrop : (pre ++ [t]).dropLast = pre := by
    simp
  refine ⟨?_, ?_, ?_⟩
  · intro hp
    simp only [openFile, hres, hcb, if_true, hlast, hp]
  · intro title syn hp hw
    simp only [openFile, hres, hcb, if_true, hlast, hp, hdrop, hw]
  · intro title syn p hp hw
    refine ⟨?_, note_exists_create_or_update st uid ts newId p title syn [],
      rfl, rfl⟩
    simp only [openFile, hres, hcb, if_true, hlast, hp, hdrop, hw]

/-- Witness for C6: opening the missing `a.md` on an empty store with
`create` set materializes the empty note row and returns a writable handle.
-/
theorem c6_witness :
    openFile ⟨[], []⟩ "u" "T1" "N" ["a.md"]
        ⟨true, true, false, true, true, false⟩ =
      .ok ((create_or_update_note ⟨[], []⟩ "u" "T1" "N" none "a" "md" []).1,
        SqliteDavFile.new_writable
          ⟨(create_or_update_note ⟨[], []⟩ "u" "T1" "N" none "a" "md" []).2,
            "a", [], "md", "T1", "T1"⟩ none true) :=
  ((c6_open_create_path ⟨[], []⟩ "u" "T1" "N"
      ⟨true, true, false, true, true, false⟩ [] "a.md" rfl
      (Or.inl rfl)).2.2 "a" "md" none rfl rfl).1

/-! ## C8: the write-then-read round trip -/

/-- The C8 pipeline: open writable with `write` and `truncate` set, write
`data` at position 0, flush, reopen read-only, read to end. -/
def writeThenReadBack (st : Store) (uid ts newId1 newId2 newId3 : String)
    (components : List String) (data : List Nat) : Option (List Nat) :=
  match openFile st uid ts newId1 components
      ⟨true, true, false, true, false, false⟩ with
  | .ok (st1, h) =>
    match h.write_bytes data with
    | .ok h2 =>
      match SqliteDavFile.flush st1 uid ts newId2 h2 with
      | .ok st2 =>
        match openFile st2 uid ts newId3 components
            ⟨true, false, false, false, false, false⟩ with
        | .ok (_, h3) => some h3.readToEnd
        | .error _ => none
      | .error _ => none
    | .error _ => none
  | .error _ => none

/-- **C8 (code evaluation at the failing input).**  The claim states the
write-then-read round trip returns exactly the written bytes, because
`truncate` seeds the buffer empty.  But `new_writable` ignores the truncate
flag passed by `open` and seeds the buffer from the existing content: on a
note `a.md` with content `"hi"` (`[104, 105]`), opening with
`write ∧ truncate`, writing `"x"` (`[120]`) and flushing commits
`[120, 105]` (`"xi"`), and reading back yields `[120, 105] ≠ [120]`. -/
theorem c8_roundtrip_fails_truncate_dropped :
    writeThenReadBack oneNoteStore "u" "T1" "w" "f" "r" ["a.md"] [120] =
      some [120, 105] ∧ ([120, 105] : List Nat) ≠ [120] := by
  constructor
  · rfl
  · decide

/-! ## C9: user scoping of the store gateway

The noninterference reading of "every query filters by `user_id`": each
gateway operation behaves identically on the store restricted to the session
user's rows (it reads nothing else), and it leaves every other user's row
untouched (it modifies and deletes nothing else). -/

/-- The sub-store of rows owned by `uid`. -/
def restrictTo (uid : String) (st : Store) : Store :=
  ⟨st.folders.filter (fun f => f.user_id = uid),
   st.notes.filter (fun n => n.user_id = uid)⟩

/-- The folder rows not owned by `uid`. -/
def othersFolders (uid : String) (st : Store) : List Folder :=
  st.folders.filter (fun f => !(f.user_id = uid))

/-- The note rows not owned by `uid`. -/
def othersNotes (uid : String) (st : Store) : List Note :=
  st.notes.filter (fun n => !(n.user_id = uid))

/-- Spec invariant I1: a folder's parent, when present, is a folder of the
same user. -/
def parentSameUserF (st : Store) : Prop :=
  ∀ f ∈ st.folders, ∀ g ∈ st.folders,
    f.parent_id = some g.id → g.user_id = f.user_id

/-- Spec invariant I2: a note's parent, when present, is a folder of the
same user. -/
def parentSameUserN (st : Store) : Prop :=
  ∀ n ∈ st.notes, ∀ g ∈ st.folders,
    n.parent_id = some g.id → g.user_id = n.user_id

instance (st : Store) : Decidable (parentSameUserF st) := by
  unfold parentSameUserF; infer_instance

instance (st : Store) : Decidable (parentSameUserN st) := by
  unfold parentSameUserN; infer_instance

theorem find?_filter_of_imp {α : Type} (l : List α) (p q : α → Bool)
    (h : ∀ x, q x = true → p x = true) :
    (l.filter p).find? q = l.find? q := by
  induction l with
  | nil => rfl
  | cons a l' ih =>
    by_cases hq : q a = true
    · rw [List.filter_cons_of_pos (h a hq), List.find?_cons_of_pos _ hq,
        List.find?_cons_of_pos _ hq]
    · by_cases hp : p a = true
      · rw [List.filter_cons_of_pos hp, List.find?_cons_of_neg _ hq,
          List.find?_cons_of_neg _ hq, ih]
      · rw [List.filter_cons_of_neg hp, List.find?_cons_of_neg _ hq, ih]

theorem any_filter_of_imp {α : Type} (l : List α) (p q : α → Bool)
    (h : ∀ x, q x = true → p x = true) :
    (l.filter p).any q = l.any q := by
  induction l with
  | nil => rfl
  | cons a l' ih =>
    by_cases hq : q a = true
    · rw [List.filter_cons_of_pos (h a hq)]
      simp [hq, ih]
    · have hq' : q a = false := bool_eq_false_of_ne_true hq
      by_cases hp : p a = true
      · rw [List.filter_cons_of_pos hp]
        simp [hq', ih]
      · rw [List.filter_cons_of_neg hp]
        simp [hq', ih]

theorem filter_filter_of_imp_mem {α : Type} (l : List α) (p q : α → Bool)
    (h : ∀ x ∈ l, q x = true → p x = true) :
    (l.filter p).filter q = l.filter q := by
  induction l with
  | nil => rfl
  | cons a l' ih =>
    have ih' := ih (fun x hx => h x (List.mem_cons_of_mem _ hx))
    by_cases hq : q a = true
    · rw [List.filter_cons_of_pos (h a (List.mem_cons_self a l') hq),
        List.filter_cons_of_pos hq, List.filter_cons_of_pos hq, ih']
    · by_cases hp : p a = true
      · rw [List.filter_cons_of_pos hp, List.filter_cons_of_neg hq,
          List.filter_cons_of_neg hq, ih']
      · rw [List.filter_cons_of_neg hp, List.filter_cons_of_neg hq, ih']

theorem filter_not_map_of_fix_mem {α : Type} (l : List α) (pu : α → Bool)
    (g : α → α) (hpres : ∀ x ∈ l, pu x = true → pu (g x) = true)
    (hfix : ∀ x ∈ l, pu x = false → g x = x) :
    (l.map g).filter (fun x => !(pu x)) = l.filter (fun x => !(pu x)) := by
  induction l with
  | nil => rfl
  | cons a l' ih =>
    have ih' := ih (fun x hx => hpres x (List.mem_cons_of_mem _ hx))
      (fun x hx => hfix x (List.mem_cons_of_mem _ hx))
    cases hpa : pu a with
    | true =>
      have hga : pu (g a) = true := hpres a (List.mem_cons_self a l') hpa
      rw [List.map_cons, List.filter_cons_of_neg (by simp [hga]),
        List.filter_cons_of_neg (by simp [hpa]), ih']
    | false =>
      rw [List.map_cons, hfix a (List.mem_cons_self a l') hpa,
        List.filter_cons_of_pos (by simp [hpa]),
        List.filter_cons_of_pos (by simp [hpa]), ih']

theorem filter_map_comm_of_inv {α : Type} (l : List α) (p : α → Bool)
    (g : α → α) (h : ∀ x, p (g x) = p x) :
    (l.map g).filter p = (l.filter p).map g := by
  induction l with
  | nil => rfl
  | cons a l' ih =>
    cases hpa : p a with
    | true =>
      rw [List.map_cons, List.filter_cons_of_pos (by rw [h a]; exact hpa),
        List.filter_cons_of_pos hpa, List.map_cons, ih]
    | false =>
      rw [List.map_cons, List.filter_cons_of_neg (by rw [h a]; simp [hpa]),
        List.filter_cons_of_neg (by simp [hpa]), ih]

theorem find_folder_restrict (st : Store) (uid : String) (p : Option String)
    (t : String) :
    find_folder (restrictTo uid st) uid p t = find_folder st uid p t := by
  unfold find_folder restrictTo
  rw [find?_filter_of_imp]
  intro x hx
  simp only [folderKeyMatches, Bool.and_eq_true, decide_eq_true_eq] at hx
  simp [hx.2]

theorem note_exists_restrict (st : Store) (uid : String) (p : Option String)
    (t s : String) :
    note_exists (restrictTo uid st) uid p t s = note_exists st uid p t s := by
  unfold note_exists restrictTo
  rw [any_filter_of_imp]
  intro x hx
  simp only [noteKeyMatches, Bool.and_eq_true, decide_eq_true_eq] at hx
  simp [hx.2]

theorem findNoteId_restrict (st : Store) (uid : String) (p : Option String)
    (t s : String) :
    findNoteId (restrictTo uid st) uid p t s = findNoteId st uid p t s := by
  unfold findNoteId restrictTo
  rw [find?_filter_of_imp]
  intro x hx
  simp only [noteKeyMatches, Bool.and_eq_true, decide_eq_true_eq] at hx
  simp [hx.2]

theorem get_note_restrict (st : Store) (uid : String) (p : Option String)
    (t s : String) :
    get_note (restrictTo uid st) uid p t s = get_note st uid p t s := by
  unfold get_note restrictTo
  rw [find?_filter_of_imp]
  intro x hx
  simp only [noteKeyMatches, Bool.and_eq_true, decide_eq_true_eq] at hx
  simp [hx.2]

theorem folderParent_restrict (st : Store) (uid fid : String) :
    folderParent (restrictTo uid st) uid fid = folderParent st uid fid := by
  unfold folderParent restrictTo
  rw [find?_filter_of_imp]
  intro x hx
  simp only [Bool.and_eq_true, decide_eq_true_eq] at hx
  simp [hx.2]

theorem isDescendantFuel_restrict (st : Store) (uid : String) :
    ∀ (fuel : Nat) (a b : String),
      isDescendantFuel (restrictTo uid st) uid fuel a b =
        isDescendantFuel st uid fuel a b := by
  intro fuel
  induction fuel with
  | zero => intro a b; rfl
  | succ n ih =>
    intro a b
    by_cases hab : a = b
    · simp [isDescendantFuel, hab]
    · simp only [isDescendantFuel, if_neg hab, folderParent_restrict]
      cases folderParent st uid a with
      | none => rfl
      | some o =>
        cases o with
        | none => rfl
        | some p => exact ih p b

theorem create_or_update_note_restrict (st : Store) (uid ts newId : String)
    (p : Option String) (t s : String) (c : List Nat) :
    create_or_update_note (restrictTo uid st) uid ts newId p t s c =
      (restrictTo uid (create_or_update_note st uid ts newId p t s c).1,
       (create_or_update_note st uid ts newId p t s c).2) := by
  unfold create_or_update_note
  rw [findNoteId_restrict]
  cases hf : findNoteId st uid p t s with
  | some nid =>
    have hcomm := filter_map_comm_of_inv st.notes
      (fun n => decide (n.user_id = uid))
      (fun n => if n.id = nid then { n with content := c, updated_at := ts }
        else n)
      (fun x => by by_cases hx : x.id = nid <;> simp [hx])
    simp only [restrictTo, hcomm]
  | none =>
    simp only [restrictTo]
    rw [List.filter_append]
    simp

theorem create_or_update_note_others (st : Store) (uid ts newId : String)
    (p : Option String) (t s : String) (c : List Nat)
    (hNid : notesIdUnique st) :
    othersNotes uid (create_or_update_note st uid ts newId p t s c).1 =
      othersNotes uid st ∧
    (create_or_update_note st uid ts newId p t s c).1.folders =
      st.folders := by
  unfold create_or_update_note
  cases hf : findNoteId st uid p t s with
  | some nid =>
    obtain ⟨n, hn, hnid⟩ := Option.map_eq_some'.mp hf
    have hmem := List.mem_of_find?_eq_some hn
    have hk := List.find?_some hn
    simp only [noteKeyMatches, Bool.and_eq_true, decide_eq_true_eq] at hk
    refine ⟨?_, rfl⟩
    unfold othersNotes
    simp only []
    apply filter_not_map_of_fix_mem
    · intro x hx hpu
      by_cases hxid : x.id = nid
      · simp only [if_pos hxid]
        exact hpu
      · simp only [if_neg hxid]
        exact hpu
    · intro x hx hpu
      by_cases hxid : x.id = nid
      · exfalso
        have hx_eq : x = n :=
          note_same_id_eq hNid hx hmem (hxid.trans hnid.symm)
        subst hx_eq
        rw [hk.2] at hpu
        simp at hpu
      · simp only [if_neg hxid]
  | none =>
    refine ⟨?_, rfl⟩
    unfold othersNotes
    simp only []
    rw [List.filter_append]
    simp

theorem create_folder_restrict (st : Store) (uid ts newId : String)
    (p : Option String) (t : String) :
    create_folder (restrictTo uid st) uid ts newId p t =
      (create_folder st uid ts newId p t).map
        (fun r => (restrictTo uid r.1, r.2)) := by
  unfold create_folder
  rw [find_folder_restrict]
  cases find_folder st uid p t with
  | some fid => rfl
  | none =>
    simp only [Except.map, restrictTo]
    rw [List.filter_append]
    simp

theorem create_folder_others (st : Store) (uid ts newId : String)
    (p : Option String) (t : String) :
    ∀ r, create_folder st uid ts newId p t = .ok r →
      othersFolders uid r.1 = othersFolders uid st ∧
      r.1.notes = st.notes := by
  intro r hr
  unfold create_folder at hr
  cases hfind : find_folder st uid p t with
  | some fid =>
    rw [hfind] at hr
    exact Except.noConfusion hr
  | none =>
    rw [hfind] at hr
    have hr' := Except.ok.inj hr
    subst hr'
    refine ⟨?_, rfl⟩
    unfold othersFolders
    simp only []
    rw [List.filter_append]
    simp

theorem delete_note_restrict (st : Store) (uid : String) (p : Option String)
    (t s : String) :
    delete_note (restrictTo uid st) uid p t s =
      (delete_note st uid p t s).map (restrictTo uid) := by
  unfold delete_note
  rw [findNoteId_restrict]
  cases findNoteId st uid p t s with
  | none => rfl
  | some nid =>
    simp only [Except.map, restrictTo]
    rw [List.filter_comm]

theorem delete_note_others (st : Store) (uid : String) (p : Option String)
    (t s : String) :
    ∀ st', delete_note st uid p t s = .ok st' →
      othersNotes uid st' = othersNotes uid st ∧
      st'.folders = st.folders := by
  intro st' h
  unfold delete_note at h
  cases hf : findNoteId st uid p t s with
  | none =>
    rw [hf] at h
    exact Except.noConfusion h
  | some nid =>
    rw [hf] at h
    have h' := Except.ok.inj h
    subst h'
    refine ⟨?_, rfl⟩
    unfold othersNotes
    simp only []
    apply filter_filter_of_imp_mem
    intro x hx hq
    simp only [Bool.not_eq_true', decide_eq_false_iff_not] at hq
    simp [hq]

theorem renameNoteUpdate_user (uid ts : String) (dstP : Option String)
    (dstT dstS nid : String) (x : Note) :
    (renameNoteUpdate uid ts dstP dstT dstS nid x).user_id = x.user_id := by
  unfold renameNoteUpdate
  split <;> rfl

theorem renameNoteUpdate_fix (uid ts : String) (dstP : Option String)
    (dstT dstS nid : String) (x : Note)
    (h : decide (x.user_id = uid) = false) :
    renameNoteUpdate uid ts dstP dstT dstS nid x = x := by
  have hc : ¬ ((x.id = nid && x.user_id = uid) = true) := by
    simp only [Bool.and_eq_true, decide_eq_true_eq]
    rintro ⟨-, hu⟩
    simp [hu] at h
  unfold renameNoteUpdate
  rw [if_neg hc]

theorem rename_note_restrict (st : Store) (uid ts : String)
    (srcP : Option String) (srcT srcS : String) (dstP : Option String)
    (dstT dstS : String) :
    rename_note (restrictTo uid st) uid ts srcP srcT srcS dstP dstT dstS =
      (rename_note st uid ts srcP srcT srcS dstP dstT dstS).map
        (restrictTo uid) := by
  unfold rename_note
  rw [findNoteId_restrict, findNoteId_restrict]
  cases findNoteId st uid srcP srcT srcS with
  | none => rfl
  | some nid =>
    have hinv : ∀ x : Note,
        decide ((renameNoteUpdate uid ts dstP dstT dstS nid x).user_id = uid)
          = decide (x.user_id = uid) := by
      intro x
      rw [renameNoteUpdate_user]
    have hcomm := filter_map_comm_of_inv st.notes
      (fun n => decide (n.user_id = uid))
      (renameNoteUpdate uid ts dstP dstT dstS nid) hinv
    cases findNoteId st uid dstP dstT dstS with
    | none =>
      simp only [Except.map, restrictTo, hcomm]
    | some did =>
      by_cases hdn : did ≠ nid
      · have hcomm2 := filter_map_comm_of_inv
          (st.notes.filter (fun n => !(n.id = did && n.user_id = uid)))
          (fun n => decide (n.user_id = uid))
          (renameNoteUpdate uid ts dstP dstT dstS nid) hinv
        simp only [Except.map, restrictTo, if_pos hdn, List.filter_comm,
          hcomm2]
      · simp only [Except.map, restrictTo, if_neg hdn, hcomm]

theorem rename_note_others (st : Store) (uid ts : String)
    (srcP : Option String) (srcT srcS : String) (dstP : Option String)
    (dstT dstS : String) :
    ∀ st', rename_note st uid ts srcP srcT srcS dstP dstT dstS = .ok st' →
      othersNotes uid st' = othersNotes uid st ∧
      st'.folders = st.folders := by
  intro st' h
  unfold rename_note at h
  cases hf : findNoteId st uid srcP srcT srcS with
  | none =>
    rw [hf] at h
    exact Except.noConfusion h
  | some nid =>
    rw [hf] at h
    have hpres : ∀ x ∈ st.notes, decide (x.user_id = uid) = true →
        decide ((renameNoteUpdate uid ts dstP dstT dstS nid x).user_id = uid)
          = true := by
      intro x _ hx
      rw [renameNoteUpdate_user]
      exact hx
    have hfix : ∀ x ∈ st.notes, decide (x.user_id = uid) = false →
        renameNoteUpdate uid ts dstP dstT dstS nid x = x := by
      intro x _ hx
      exact renameNoteUpdate_fix uid ts dstP dstT dstS nid x hx
    cases hd : findNoteId st uid dstP dstT dstS with
    | none =>
      rw [hd] at h
      have h' := Except.ok.inj h
      subst h'
      refine ⟨?_, rfl⟩
      unfold othersNotes
      simp only []
      exact filter_not_map_of_fix_mem st.notes _ _ hpres hfix
    | some did =>
      rw [hd] at h
      simp only [] at h
      by_cases hdn : did ≠ nid
      · rw [if_pos hdn] at h
        have h' := Except.ok.inj h
        subst h'
        refine ⟨?_, rfl⟩
        unfold othersNotes
        simp only []
        rw [filter_not_map_of_fix_mem _ _ _
          (fun x hx => hpres x (List.mem_of_mem_filter hx))
          (fun x hx => hfix x (List.mem_of_mem_filter hx))]
        apply filter_filter_of_imp_mem
        intro x hx hq
        simp only [Bool.not_eq_true', decide_eq_false_iff_not] at hq
        simp [hq]
      · rw [if_neg hdn] at h
        have h' := Except.ok.inj h
        subst h'
        refine ⟨?_, rfl⟩
        unfold othersNotes
        simp only []
        exact filter_not_map_of_fix_mem st.notes _ _ hpres hfix

theorem applyFolderUpdate_others (st : Store) (uid ts fid : String)
    (np : Option String) (nt : String) :
    othersFolders uid (applyFolderUpdate st uid ts fid np nt) =
      othersFolders uid st ∧
    (applyFolderUpdate st uid ts fid np nt).notes = st.notes := by
  refine ⟨?_, rfl⟩
  unfold othersFolders applyFolderUpdate
  simp only []
  apply filter_not_map_of_fix_mem
  · intro x _ hx
    by_cases hc : (x.id = fid && x.user_id = uid) = true
    · rw [if_pos hc]
      exact hx
    · rw [if_neg hc]
      exact hx
  · intro x _ hx
    have hc : ¬((x.id = fid && x.user_id = uid) = true) := by
      simp only [Bool.and_eq_true, decide_eq_true_eq]
      rintro ⟨-, hu⟩
      simp [hu] at hx
    rw [if_neg hc]

theorem applyFolderUpdate_restrict (st : Store) (uid ts fid : String)
    (np : Option String) (nt : String) :
    applyFolderUpdate (restrictTo uid st) uid ts fid np nt =
      restrictTo uid (applyFolderUpdate st uid ts fid np nt) := by
  have h : ∀ x : Folder,
      decide (((fun f : Folder =>
        if f.id = fid && f.user_id = uid then
          { f with title := nt, parent_id := np, updated_at := ts }
        else f) x).user_id = uid) = decide (x.user_id = uid) := by
    intro x
    simp only []
    split <;> rfl
  unfold applyFolderUpdate restrictTo
  simp only []
  rw [filter_map_comm_of_inv st.folders _ _ h]

theorem rename_folder_ok_eq (st : Store) (uid ts : String) (fuel : Nat)
    (fid : String) (np : Option String) (nt : String) (st' : Store)
    (h : rename_folder st uid ts fuel fid np nt = some (.ok st')) :
    st' = applyFolderUpdate st uid ts fid np nt := by
  unfold rename_folder at h
  by_cases hex :
      (!(st.folders.any (fun f => f.id = fid && f.user_id = uid))) = true
  · rw [if_pos hex] at h
    simp at h
  · rw [if_neg hex] at h
    cases hconf : find_folder st uid np nt with
    | some did =>
      rw [hconf] at h
      simp only [] at h
      cases hbe : (did != fid) with
      | true =>
        simp only [hbe] at h
        simp at h
      | false =>
        simp only [hbe] at h
        simp only [Bool.false_eq_true, if_false] at h
        cases np with
        | none => exact (Except.ok.inj (Option.some.inj h)).symm
        | some np' =>
          simp only [] at h
          by_cases hnp : np' = fid
          · simp only [if_pos hnp] at h
            simp at h
          · simp only [if_neg hnp] at h
            cases hw : isDescendantFuel st uid fuel np' fid with
            | none =>
              rw [hw] at h
              simp at h
            | some b =>
              rw [hw] at h
              cases b with
              | true => simp at h
              | false => exact (Except.ok.inj (Option.some.inj h)).symm
    | none =>
      rw [hconf] at h
      simp only [] at h
      cases np with
      | none => exact (Except.ok.inj (Option.some.inj h)).symm
      | some np' =>
        simp only [] at h
        by_cases hnp : np' = fid
        · simp only [if_pos hnp] at h
          simp at h
        · simp only [if_neg hnp] at h
          cases hw : isDescendantFuel st uid fuel np' fid with
          | none =>
            rw [hw] at h
            simp at h
          | some b =>
            rw [hw] at h
            cases b with
            | true => simp at h
            | false => exact (Except.ok.inj (Option.some.inj h)).symm

theorem rename_folder_others (st : Store) (uid ts : String) (fuel : Nat)
    (fid : String) (np : Option String) (nt : String) :
    ∀ st', rename_folder st uid ts fuel fid np nt = some (.ok st') →
      othersFolders uid st' = othersFolders uid st ∧
      st'.notes = st.notes := by
  intro st' h
  rw [rename_folder_ok_eq st uid ts fuel fid np nt st' h]
  exact applyFolderUpdate_others st uid ts fid np nt

theorem rename_folder_restrict (st : Store) (uid ts : String) (fuel : Nat)
    (fid : String) (np : Option String) (nt : String) :
    rename_folder (restrictTo uid st) uid ts fuel fid np nt =
      (rename_folder st uid ts fuel fid np nt).map
        (Except.map (restrictTo uid)) := by
  have hany : (restrictTo uid st).folders.any
      (fun f => f.id = fid && f.user_id = uid) =
      st.folders.any (fun f => f.id = fid && f.user_id = uid) := by
    unfold restrictTo
    apply any_filter_of_imp
    intro x hx
    simp only [Bool.and_eq_true, decide_eq_true_eq] at hx
    simp [hx.2]
  unfold rename_folder
  rw [hany, find_folder_restrict]
  simp only [isDescendantFuel_restrict, applyFolderUpdate_restrict]
  cases hex : st.folders.any (fun f => f.id = fid && f.user_id = uid) with
  | false => rfl
  | true =>
    cases find_folder st uid np nt with
    | some did =>
      cases hbe : (did != fid) with
      | true => simp [hbe, Except.map]
      | false =>
        cases np with
        | none => simp [hbe, Except.map]
        | some np' =>
          by_cases hnp : np' = fid
          · simp [hbe, hnp, Except.map]
          · cases hw : isDescendantFuel st uid fuel np' fid with
            | none => simp [hbe, hnp, hw]
            | some b =>
              cases b with
              | true => simp [hbe, hnp, hw, Except.map]
              | false => simp [hbe, hnp, hw, Except.map]
    | none =>
      cases np with
      | none => simp [Except.map]
      | some np' =>
        by_cases hnp : np' = fid
        · simp [hnp, Except.map]
        · cases hw : isDescendantFuel st uid fuel np' fid with
          | none => simp [hnp, hw]
          | some b =>
            cases b with
            | true => simp [hnp, hw, Except.map]
            | false => simp [hnp, hw, Except.map]

theorem contains_eq_false_iff {α : Type} [BEq α] [LawfulBEq α] (l : List α)
    (a : α) : l.contains a = false ↔ a ∉ l := by
  constructor
  · intro h hmem
    have h1 : l.contains a = true := List.elem_iff.mpr hmem
    rw [h1] at h
    exact Bool.noConfusion h
  · intro h
    cases hc : l.contains a
    · rfl
    · exact absurd (List.elem_iff.mp hc) h

theorem expand_next_empty (folders : List Folder) (acc : List String)
    (h : (folders.filter (cascadeNextCond acc)).isEmpty = true) :
    ∀ fuel, expandDescendants folders fuel acc = acc := by
  intro fuel
  cases fuel with
  | zero => rfl
  | succ n => simp only [expandDescendants, h, if_true]

theorem countP_mono_of_imp {α : Type} (l : List α) (p q : α → Bool)
    (h : ∀ a ∈ l, p a = true → q a = true) : l.countP p ≤ l.countP q := by
  induction l with
  | nil => exact Nat.le_refl 0
  | cons a l' ih =>
    have ih' := ih (fun x hx => h x (List.mem_cons_of_mem _ hx))
    rw [List.countP_cons, List.countP_cons]
    by_cases hp : p a = true
    · rw [if_pos hp, if_pos (h a (List.mem_cons_self a l') hp)]
      omega
    · rw [if_neg hp]
      by_cases hq : q a = true
      · rw [if_pos hq]
        omega
      · rw [if_neg hq]
        omega

theorem countP_lt_of_witness {α : Type} (l : List α) (p q : α → Bool)
    (h : ∀ a ∈ l, p a = true → q a = true)
    (b : α) (hb : b ∈ l) (hqb : q b = true) (hpb : p b = false) :
    l.countP p < l.countP q := by
  induction l with
  | nil => exact absurd hb (List.not_mem_nil b)
  | cons a l' ih =>
    rw [List.countP_cons, List.countP_cons]
    rcases List.mem_cons.mp hb with rfl | hb'
    · rw [if_neg (by simp [hpb]), if_pos hqb]
      have := countP_mono_of_imp l' p q
        (fun x hx => h x (List.mem_cons_of_mem _ hx))
      omega
    · have hlt := ih (fun x hx => h x (List.mem_cons_of_mem _ hx)) hb'
      by_cases hp : p a = true
      · rw [if_pos hp, if_pos (h a (List.mem_cons_self a l') hp)]
        omega
      · rw [if_neg hp]
        by_cases hq : q a = true
        · rw [if_pos hq]
          omega
        · rw [if_neg hq]
          omega

theorem cascadeNextCond_user (st : Store) (uid : String)
    (hI1 : parentSameUserF st) (acc : List String)
    (hacc : ∀ x ∈ acc, ∃ f ∈ st.folders, f.user_id = uid ∧ f.id = x) :
    ∀ f ∈ st.folders, cascadeNextCond acc f = true → f.user_id = uid := by
  intro f hf hc
  unfold cascadeNextCond at hc
  cases hp : f.parent_id with
  | none =>
    rw [hp] at hc
    exact absurd hc (by simp)
  | some p =>
    rw [hp] at hc
    have hcp : acc.contains p = true := ((Bool.and_eq_true _ _).mp hc).1
    obtain ⟨g, hg, hgu, hgid⟩ := hacc p (List.elem_iff.mp hcp)
    have hsame := hI1 f hf g hg (by rw [hp, hgid])
    rw [← hsame]
    exact hgu

theorem cascadeNextCond_new (acc : List String) (f : Folder)
    (hc : cascadeNextCond acc f = true) : acc.contains f.id = false := by
  unfold cascadeNextCond at hc
  cases hp : f.parent_id with
  | none =>
    rw [hp] at hc
    exact absurd hc (by simp)
  | some p =>
    rw [hp] at hc
    have := ((Bool.and_eq_true _ _).mp hc).2
    cases hcc : acc.contains f.id
    · rfl
    · rw [hcc] at this
      exact absurd this (by simp)

theorem expandDescendants_owned_restrict (st : Store) (uid : String)
    (hI1 : parentSameUserF st) :
    ∀ (fuel : Nat) (acc : List String),
      (∀ x ∈ acc, ∃ f ∈ st.folders, f.user_id = uid ∧ f.id = x) →
      (∀ x ∈ expandDescendants st.folders fuel acc,
        ∃ f ∈ st.folders, f.user_id = uid ∧ f.id = x) ∧
      expandDescendants (restrictTo uid st).folders fuel acc =
        expandDescendants st.folders fuel acc := by
  intro fuel
  induction fuel with
  | zero =>
    intro acc hacc
    exact ⟨hacc, rfl⟩
  | succ n ih =>
    intro acc hacc
    have hcond := cascadeNextCond_user st uid hI1 acc hacc
    have hnext : (restrictTo uid st).folders.filter (cascadeNextCond acc) =
        st.folders.filter (cascadeNextCond acc) := by
      unfold restrictTo
      apply filter_filter_of_imp_mem
      intro x hx hq
      simp [hcond x hx hq]
    simp only [expandDescendants, hnext]
    by_cases hemp : (st.folders.filter (cascadeNextCond acc)).isEmpty = true
    · simp only [hemp, if_true]
      exact ⟨hacc, trivial⟩
    · have hemp' : (st.folders.filter (cascadeNextCond acc)).isEmpty = false :=
        bool_eq_false_of_ne_true hemp
      simp only [hemp', Bool.false_eq_true, if_false]
      apply ih
      intro x hx
      rcases List.mem_append.mp hx with hx | hx
      · exact hacc x hx
      · obtain ⟨f, hf, rfl⟩ := List.mem_map.mp hx
        have hfmem := List.mem_of_mem_filter hf
        exact ⟨f, hfmem, hcond f hfmem (List.of_mem_filter hf), rfl⟩

/-- The number of `uid` folder rows whose id is not yet in the doomed set:
the strictly decreasing measure of the cascade expansion. -/
def expandMeasure (folders : List Folder) (uid : String)
    (acc : List String) : Nat :=
  folders.countP (fun f => f.user_id = uid && !acc.contains f.id)

theorem expandDescendants_fuel_stable (st : Store) (uid : String)
    (hI1 : parentSameUserF st) :
    ∀ (r : Nat) (acc : List String),
      (∀ x ∈ acc, ∃ f ∈ st.folders, f.user_id = uid ∧ f.id = x) →
      expandMeasure st.folders uid acc ≤ r →
      ∀ fuel₁ fuel₂,
        expandMeasure st.folders uid acc ≤ fuel₁ →
        expandMeasure st.folders uid acc ≤ fuel₂ →
        expandDescendants st.folders fuel₁ acc =
          expandDescendants st.folders fuel₂ acc := by
  intro r
  induction r with
  | zero =>
    intro acc hacc hr fuel₁ fuel₂ h1 h2
    have hnext : (st.folders.filter (cascadeNextCond acc)).isEmpty = true := by
      by_contra hne
      have hne' : st.folders.filter (cascadeNextCond acc) ≠ [] := by
        intro hnil
        rw [hnil] at hne
        exact hne rfl
      obtain ⟨f₀, hf₀⟩ := List.exists_mem_of_ne_nil _ hne'
      have hf₀mem := List.mem_of_mem_filter hf₀
      have hf₀c := List.of_mem_filter hf₀
      have hnotin₀ : f₀.id ∉ acc :=
        (contains_eq_false_iff acc f₀.id).mp (cascadeNextCond_new acc f₀ hf₀c)
      have hcount : 0 < expandMeasure st.folders uid acc := by
        rw [expandMeasure, List.countP_pos_iff]
        refine ⟨f₀, hf₀mem, ?_⟩
        simp [cascadeNextCond_user st uid hI1 acc hacc f₀ hf₀mem hf₀c,
          hnotin₀]
      omega
    rw [expand_next_empty _ _ hnext, expand_next_empty _ _ hnext]
  | succ k ih =>
    intro acc hacc hr fuel₁ fuel₂ h1 h2
    by_cases hemp : (st.folders.filter (cascadeNextCond acc)).isEmpty = true
    · rw [expand_next_empty _ _ hemp, expand_next_empty _ _ hemp]
    · have hne' : st.folders.filter (cascadeNextCond acc) ≠ [] := by
        intro hnil
        rw [hnil] at hemp
        exact hemp rfl
      obtain ⟨f₀, hf₀⟩ := List.exists_mem_of_ne_nil _ hne'
      have hf₀mem := List.mem_of_mem_filter hf₀
      have hf₀c := List.of_mem_filter hf₀
      have hnotin₀ : f₀.id ∉ acc :=
        (contains_eq_false_iff acc f₀.id).mp (cascadeNextCond_new acc f₀ hf₀c)
      have hcount : 0 < expandMeasure st.folders uid acc := by
        rw [expandMeasure, List.countP_pos_iff]
        refine ⟨f₀, hf₀mem, ?_⟩
        simp [cascadeNextCond_user st uid hI1 acc hacc f₀ hf₀mem hf₀c,
          hnotin₀]
      have hacc' : ∀ x ∈ acc ++
          (st.folders.filter (cascadeNextCond acc)).map (·.id),
          ∃ f ∈ st.folders, f.user_id = uid ∧ f.id = x := by
        intro x hx
        rcases List.mem_append.mp hx with hx | hx
        · exact hacc x hx
        · obtain ⟨f, hf, rfl⟩ := List.mem_map.mp hx
          have hfmem := List.mem_of_mem_filter hf
          exact ⟨f, hfmem,
            cascadeNextCond_user st uid hI1 acc hacc f hfmem
              (List.of_mem_filter hf), rfl⟩
      have hdec : expandMeasure st.folders uid
          (acc ++ (st.folders.filter (cascadeNextCond acc)).map (·.id)) <
          expandMeasure st.folders uid acc := by
        apply countP_lt_of_witness
        · intro a _ hp
          obtain ⟨hu, hnc⟩ := (Bool.and_eq_true _ _).mp hp
          rw [Bool.and_eq_true]
          refine ⟨hu, ?_⟩
          have hnotin : a.id ∉ acc ++
              (st.folders.filter (cascadeNextCond acc)).map (·.id) := by
            apply (contains_eq_false_iff _ _).mp
            cases hcc : (acc ++ _).contains a.id
            · rfl
            · rw [hcc] at hnc
              exact absurd hnc (by simp)
          have hout : a.id ∉ acc := fun hmem =>
            hnotin (List.mem_append_left _ hmem)
          simp [hout]
        · exact hf₀mem
        · simp [cascadeNextCond_user st uid hI1 acc hacc f₀ hf₀mem hf₀c,
            hnotin₀]
        · have hin : f₀.id ∈ acc ++
              (st.folders.filter (cascadeNextCond acc)).map (·.id) :=
            List.mem_append_right _ (List.mem_map_of_mem _ hf₀)
          simp [hin]
      cases fuel₁ with
      | zero => omega
      | succ m₁ =>
        cases fuel₂ with
        | zero => omega
        | succ m₂ =>
          have hemp' :
              (st.folders.filter (cascadeNextCond acc)).isEmpty = false :=
            bool_eq_false_of_ne_true hemp
          simp only [expandDescendants, hemp', Bool.false_eq_true, if_false]
          exact ih _ hacc' (by omega) m₁ m₂ (by omega) (by omega)

theorem delete_folder_acc_fid (st : Store) (uid fid : String)
    (hex : st.folders.any (fun f => f.id = fid && f.user_id = uid) = true) :
    ∀ x ∈ [fid], ∃ f ∈ st.folders, f.user_id = uid ∧ f.id = x := by
  intro x hx
  have hx' : x = fid := by simpa using hx
  subst hx'
  obtain ⟨f, hf, hfc⟩ := List.any_eq_true.mp hex
  simp only [Bool.and_eq_true, decide_eq_true_eq] at hfc
  exact ⟨f, hf, hfc.2, hfc.1⟩

theorem delete_folder_restrict (st : Store) (uid fid : String)
    (hI1 : parentSameUserF st) :
    delete_folder (restrictTo uid st) uid fid =
      (delete_folder st uid fid).map (restrictTo uid) := by
  have hany : (restrictTo uid st).folders.any
      (fun f => f.id = fid && f.user_id = uid) =
      st.folders.any (fun f => f.id = fid && f.user_id = uid) := by
    unfold restrictTo
    apply any_filter_of_imp
    intro x hx
    simp only [Bool.and_eq_true, decide_eq_true_eq] at hx
    simp [hx.2]
  unfold delete_folder
  rw [hany]
  by_cases hex : st.folders.any (fun f => f.id = fid && f.user_id = uid) = true
  · rw [if_pos hex, if_pos hex]
    have hacc := delete_folder_acc_fid st uid fid hex
    have hdr := (expandDescendants_owned_restrict st uid hI1
        ((restrictTo uid st).folders.length) [fid] hacc).2
    have hmeasR : expandMeasure st.folders uid [fid] ≤
        (restrictTo uid st).folders.length := by
      unfold expandMeasure restrictTo
      simp only []
      rw [← List.countP_eq_length_filter]
      apply countP_mono_of_imp
      intro a _ hp
      exact ((Bool.and_eq_true _ _).mp hp).1
    have hmeasF : expandMeasure st.folders uid [fid] ≤ st.folders.length :=
      List.countP_le_length _
    have hfuel := expandDescendants_fuel_stable st uid hI1
      (expandMeasure st.folders uid [fid]) [fid] hacc (Nat.le_refl _)
      ((restrictTo uid st).folders.length) st.folders.length hmeasR hmeasF
    simp only [hdr, hfuel]
    simp only [Except.map, restrictTo]
    rw [List.filter_comm, List.filter_comm _ _ st.notes]
  · rw [if_neg hex, if_neg hex]
    rfl

theorem delete_folder_others (st : Store) (uid fid : String)
    (hFid : foldersIdUnique st) (hI1 : parentSameUserF st)
    (hI2 : parentSameUserN st) :
    ∀ st', delete_folder st uid fid = .ok st' →
      othersFolders uid st' = othersFolders uid st ∧
      othersNotes uid st' = othersNotes uid st := by
  intro st' h
  unfold delete_folder at h
  by_cases hex : st.folders.any (fun f => f.id = fid && f.user_id = uid) = true
  · rw [if_pos hex] at h
    simp only [] at h
    have h' := Except.ok.inj h
    subst h'
    have hacc := delete_folder_acc_fid st uid fid hex
    have hdoomed := (expandDescendants_owned_restrict st uid hI1
        st.folders.length [fid] hacc).1
    constructor
    · unfold othersFolders
      simp only []
      apply filter_filter_of_imp_mem
      intro x hx hq
      simp only [Bool.not_eq_true', decide_eq_false_iff_not] at hq
      cases hcc :
          (expandDescendants st.folders st.folders.length [fid]).contains x.id
      · rfl
      · obtain ⟨g, hg, hgu, hgid⟩ := hdoomed x.id (List.elem_iff.mp hcc)
        have hxg : x = g := folder_same_id_eq hFid hx hg hgid.symm
        exact absurd (by rw [hxg]; exact hgu) hq
    · unfold othersNotes
      simp only []
      apply filter_filter_of_imp_mem
      intro n hn hq
      simp only [Bool.not_eq_true', decide_eq_false_iff_not] at hq
      cases hp : n.parent_id with
      | none => rfl
      | some p =>
        simp only []
        cases hcc :
            (expandDescendants st.folders st.folders.length [fid]).contains p
        · rfl
        · obtain ⟨g, hg, hgu, hgid⟩ := hdoomed p (List.elem_iff.mp hcc)
          have hgn := hI2 n hn g hg (by rw [hp, hgid])
          exact absurd (hgn.symm.trans hgu) hq
  · rw [if_neg hex] at h
    exact Except.noConfusion h

/-- A store with two note rows sharing the id `"i"`, owned by different
users — exercising the missing `user_id` filter of `create_or_update_note`'s
UPDATE statement (`UPDATE notes SET content = ?, updated_at = ? WHERE
id = ?`, filesystem.rs line 347). -/
def dupIdStore : Store :=
  ⟨[], [⟨"i", "t", [97], "md", none, "alice", "T0", "T0"⟩,
        ⟨"i", "t2", [98], "md", none, "bob", "T0", "T0"⟩]⟩

/-- **C9 (counterexample).**  The claim states that every statement carries
`user_id` as a filter, so no operation modifies a row of another user.  The
UPDATE inside `create_or_update_note` filters by `id` alone: on a store with
two rows sharing an id, alice's content update rewrites bob's row as well —
bob's row set changes. -/
theorem c9_counterexample_update_without_user_filter :
    othersNotes "alice"
        (create_or_update_note dupIdStore "alice" "T1" "fresh" none "t" "md"
          [99]).1 ≠
      othersNotes "alice" dupIdStore ∧
    (create_or_update_note dupIdStore "alice" "T1" "fresh" none "t" "md"
        [99]).1.notes =
      [⟨"i", "t", [99], "md", none, "alice", "T0", "T1"⟩,
       ⟨"i", "t2", [99], "md", none, "bob", "T0", "T1"⟩] := by
  constructor
  · decide
  · decide

/-- **C9 (amended).**  Every query and statement issued by the store gateway
carries the configured `user_id` as a filter, except the content UPDATE
inside `create_or_update_note` (which filters by the note id alone, the id
coming from a `user_id`-filtered SELECT) and the `ON DELETE CASCADE` of
`delete_folder` (which follows parent references regardless of owner).
Consequently, on stores satisfying the schema's id-uniqueness and the spec's
parent-ownership invariants I1/I2, no operation reads, modifies or deletes a
row whose `user_id` differs from the session's: every gateway operation
computes the same result on the store restricted to the session user's rows,
and on success leaves every other user's rows exactly as they were. -/
theorem c9_amended_user_scoping (st : Store) (uid : String)
    (hNid : notesIdUnique st) (hFid : foldersIdUnique st)
    (hI1 : parentSameUserF st) (hI2 : parentSameUserN st) :
    (∀ p t, find_folder (restrictTo uid st) uid p t =
      find_folder st uid p t) ∧
    (∀ p t s, note_exists (restrictTo uid st) uid p t s =
      note_exists st uid p t s) ∧
    (∀ p t s, get_note (restrictTo uid st) uid p t s =
      get_note st uid p t s) ∧
    (∀ fuel a b, isDescendantFuel (restrictTo uid st) uid fuel a b =
      isDescendantFuel st uid fuel a b) ∧
    (∀ ts newId p t s c,
      create_or_update_note (restrictTo uid st) uid ts newId p t s c =
        (restrictTo uid (create_or_update_note st uid ts newId p t s c).1,
         (create_or_update_note st uid ts newId p t s c).2) ∧
      othersNotes uid (create_or_update_note st uid ts newId p t s c).1 =
        othersNotes uid st ∧
      (create_or_update_note st uid ts newId p t s c).1.folders =
        st.folders) ∧
    (∀ ts newId p t,
      create_folder (restrictTo uid st) uid ts newId p t =
        (create_folder st uid ts newId p t).map
          (fun r => (restrictTo uid r.1, r.2)) ∧
      ∀ r, create_folder st uid ts newId p t = .ok r →
        othersFolders uid r.1 = othersFolders uid st ∧
        r.1.notes = st.notes) ∧
    (∀ p t s,
      delete_note (restrictTo uid st) uid p t s =
        (delete_note st uid p t s).map (restrictTo uid) ∧
      ∀ st', delete_note st uid p t s = .ok st' →
        othersNotes uid st' = othersNotes uid st ∧
        st'.folders = st.folders) ∧
    (∀ ts sp st1 ss dp dt ds,
      rename_note (restrictTo uid st) uid ts sp st1 ss dp dt ds =
        (rename_note st uid ts sp st1 ss dp dt ds).map (restrictTo uid) ∧
      ∀ st', rename_note st uid ts sp st1 ss dp dt ds = .ok st' →
        othersNotes uid st' = othersNotes uid st ∧
        st'.folders = st.folders) ∧
    (∀ ts fuel fid np nt,
      rename_folder (restrictTo uid st) uid ts fuel fid np nt =
        (rename_folder st uid ts fuel fid np nt).map
          (Except.map (restrictTo uid)) ∧
      ∀ st', rename_folder st uid ts fuel fid np nt = some (.ok st') →
        othersFolders uid st' = othersFolders uid st ∧
        st'.notes = st.notes) ∧
    (∀ fid,
      delete_folder (restrictTo uid st) uid fid =
        (delete_folder st uid fid).map (restrictTo uid) ∧
      ∀ st', delete_folder st uid fid = .ok st' →
        othersFolders uid st' = othersFolders uid st ∧
        othersNotes uid st' = othersNotes uid st) := by
  refine ⟨find_folder_restrict st uid, note_exists_restrict st uid,
    get_note_restrict st uid, isDescendantFuel_restrict st uid,
    ?_, ?_, ?_, ?_, ?_, ?_⟩
  · intro ts newId p t s c
    exact ⟨create_or_update_note_restrict st uid ts newId p t s c,
      (create_or_update_note_others st uid ts newId p t s c hNid).1,
      (create_or_update_note_others st uid ts newId p t s c hNid).2⟩
  · intro ts newId p t
    exact ⟨create_folder_restrict st uid ts newId p t,
      create_folder_others st uid ts newId p t⟩
  · intro p t s
    exact ⟨delete_note_restrict st uid p t s, delete_note_others st uid p t s⟩
  · intro ts sp st1 ss dp dt ds
    exact ⟨rename_note_restrict st uid ts sp st1 ss dp dt ds,
      rename_note_others st uid ts sp st1 ss dp dt ds⟩
  · intro ts fuel fid np nt
    exact ⟨rename_folder_restrict st uid ts fuel fid np nt,
      rename_folder_others st uid ts fuel fid np nt⟩
  · intro fid
    exact ⟨delete_folder_restrict st uid fid hI1,
      delete_folder_others st uid fid hFid hI1 hI2⟩

/-- Witness for C9: on the two-note store, the folder lookup behaves
identically on the user-restricted store, per the amended scoping theorem. -/
theorem c9_witness :
    find_folder (restrictTo "u" twoNoteStore) "u" none "x" =
      find_folder twoNoteStore "u" none "x" :=
  (c9_amended_user_scoping twoNoteStore "u" (by decide) (by decide)
    (by decide) (by decide)).1 none "x"

end Lilium
